import Mathlib

/-!
Verification of the backup/restore orchestration engine of
`backup_restore.py` (class `TelecomBackup`).

The program is embedded shallowly:

* The filesystem is a pair of total maps: `files` sends a path (a list of
  name components) to an optional file content, `dirs` flags the paths that
  are directories.  `shutil.copytree(src, dst, dirs_exist_ok=True)`,
  `shutil.copy2`, `shutil.rmtree`, `Path.mkdir` and `Path.unlink` become
  pointwise updates of these maps.
* A `.tar.gz` archive produced by `tarfile.add(dir, arcname)` is a flat
  snapshot of the subtree rooted at `dir`, re-rooted at `arcname`; archives
  live in their own map of the `World` state, keyed by the archive path.
  `tarfile.extractall(dst)` overlays the snapshot under `dst`.
* Databases are a map from database name to optional content; the external
  `mysqldump` / `mysql` commands are oracles (`DbEnv`) giving the exit
  status and output of each invocation.
* Exceptions raised by `shutil` copies are an oracle (`Env.copyOk`); a
  failed copy is modelled as leaving the filesystem unchanged.  `os`-level
  exceptions inside the per-database dump loop are not modelled.
* Python `str.replace` (used by `cleanup_old_backups` to derive a metadata
  filename) is `replaceL` on lists of characters: leftmost, non-overlapping,
  all occurrences.  `Path.glob("*backup_*.tar.gz")` is `globArchive`.
-/

abbrev FPath := List String

abbrev Dict := List (String × String)

/-- A filesystem: file contents by path and a directory flag by path. -/
structure FS where
  files : FPath → Option String
  dirs : FPath → Bool

/-- `Path.exists()`: the path is a directory or a file. -/
def FS.pathExists (fs : FS) (p : FPath) : Bool :=
  fs.dirs p || (fs.files p).isSome

/-- `Path.mkdir(exist_ok=True)` (parent creation is irrelevant to the claims). -/
def FS.mkdir (fs : FS) (p : FPath) : FS :=
  { fs with dirs := fun q => if q = p then true else fs.dirs q }

/-- `shutil.copytree(src, dst, dirs_exist_ok=True)`: overlay the subtree at
`src` onto `dst`; entries of `dst` with no counterpart in `src` survive.
All call sites have disjoint `src`/`dst` subtrees. -/
def FS.copytree (fs : FS) (src dst : FPath) : FS :=
  { files := fun q =>
      if dst.isPrefixOf q && (fs.files (src ++ q.drop dst.length)).isSome then
        fs.files (src ++ q.drop dst.length)
      else fs.files q,
    dirs := fun q =>
      fs.dirs q || (dst.isPrefixOf q && fs.dirs (src ++ q.drop dst.length)) }

/-- `shutil.copy2(src, dstdir)` with a directory destination: the file lands
under its own basename. -/
def FS.copyFileToDir (fs : FS) (src dstdir : FPath) : FS :=
  { fs with files := fun q =>
      if q = dstdir ++ [(src.getLast?).getD ""] then fs.files src else fs.files q }

/-- `shutil.copy2(src, dst)` with a file destination. -/
def FS.copyFile (fs : FS) (src dst : FPath) : FS :=
  { fs with files := fun q => if q = dst then fs.files src else fs.files q }

/-- `shutil.rmtree(p)`: remove the whole subtree rooted at `p`. -/
def FS.rmtree (fs : FS) (p : FPath) : FS :=
  { files := fun q => if p.isPrefixOf q then none else fs.files q,
    dirs := fun q => if p.isPrefixOf q then false else fs.dirs q }

/-- `Path.unlink()`. -/
def FS.unlink (fs : FS) (p : FPath) : FS :=
  { fs with files := fun q => if q = p then none else fs.files q }

/-- `open(p, "w")` followed by writing `content`. -/
def FS.writeFile (fs : FS) (p : FPath) (content : String) : FS :=
  { fs with files := fun q => if q = p then some content else fs.files q }

/-- A `.tar.gz` archive: the flat snapshot taken by
`tar.add(dir, arcname)`. -/
structure Archive where
  afiles : FPath → Option String
  adirs : FPath → Bool

/-- `tar.add(dir, arcname)`: entries `arcname/rest` mirror `dir/rest`. -/
def tarAdd (fs : FS) (dir : FPath) (arcname : String) : Archive :=
  { afiles := fun q =>
      match q with
      | [] => none
      | root :: rest => if root = arcname then fs.files (dir ++ rest) else none,
    adirs := fun q =>
      match q with
      | [] => false
      | root :: rest => decide (root = arcname) && fs.dirs (dir ++ rest) }

/-- `tar.extractall(dst)`: overlay the archive under `dst`; files already on
disk that the archive does not mention survive. -/
def FS.extractAll (fs : FS) (ar : Archive) (dst : FPath) : FS :=
  { files := fun q =>
      if dst.isPrefixOf q && (ar.afiles (q.drop dst.length)).isSome then
        ar.afiles (q.drop dst.length)
      else fs.files q,
    dirs := fun q => fs.dirs q || (dst.isPrefixOf q && ar.adirs (q.drop dst.length)) }

/-- The state seen by the tool: the live filesystem, the archive files under
the backup root, and the database engine's contents. -/
structure World where
  fs : FS
  archives : FPath → Option Archive
  dbs : String → Option String

/-- Oracle for `shutil` copy calls: whether copying `src` to `dst` raises.
`copyErr` is the exception text. -/
structure Env where
  copyOk : FPath → FPath → Bool
  copyErr : FPath → FPath → String

/-- Oracles for the external `systemctl` / `mysqldump` / `mysql` commands. -/
structure DbEnv where
  statusOk : Bool
  mariadbActive : Bool
  statusErr : String
  dumpExit : String → Bool
  dumpOut : String → String
  dumpErr : String → String
  restoreExit : String → Bool
  clusterExit : Bool
  clusterOut : String
  clusterErr : String

/-- `Path(p).name`. -/
def baseName (p : FPath) : String := (p.getLast?).getD ""

/-- Python dict assignment `m[k] = v`: overwrite in place or append. -/
def dictSet (m : Dict) (k v : String) : Dict :=
  if m.any (fun e => e.1 == k) then m.map (fun e => if e.1 = k then (k, v) else e)
  else m ++ [(k, v)]

/-- Python dict lookup. -/
def dictGet (m : Dict) (k : String) : Option String :=
  (m.find? (fun e => e.1 == k)).map (fun e => e.2)

/-- `self.config_paths` of `TelecomBackup.__init__`. -/
def config_paths : List (String × List FPath) :=
  [("kamailio", [["etc", "kamailio"]]),
   ("freeradius", [["etc", "freeradius"]]),
   ("mariadb", [["etc", "mysql"]]),
   ("keepalived", [["etc", "keepalived"]]),
   ("puppet", [["etc", "puppetlabs"]]),
   ("monitoring", [["opt", "monitoring"]]),
   ("ssl_certs", [["etc", "ssl"], ["opt", "ca"]]),
   ("wireguard", [["etc", "wireguard"]]),
   ("haproxy", [["etc", "haproxy"]])]

/-- `self.db_config['databases']`. -/
def db_config_databases : List String := ["kamailio", "radius", "mysql"]

/-- `self.config_paths.get(service, [])`. -/
def lookupPaths (cfg : List (String × List FPath)) (s : String) : List FPath :=
  match cfg.find? (fun e => e.1 == s) with
  | some e => e.2
  | none => []

/-- One `path` iteration of the loop in
`TelecomBackup.backup_configurations` (lines 75-95): record `success`,
`error: ...` or `path_not_found` under key `service_basename` and copy the
path into the staging subdirectory `sbd` of the service. -/
def backupPaths (env : Env) (s : String) (sbd : FPath) :
    FS → Dict → List FPath → FS × Dict
  | fs, res, [] => (fs, res)
  | fs, res, p :: ps =>
    let key := s ++ "_" ++ baseName p
    if fs.pathExists p then
      if fs.dirs p then
        let dst := sbd ++ [baseName p]
        if env.copyOk p dst then
          backupPaths env s sbd (fs.copytree p dst) (dictSet res key "success") ps
        else
          backupPaths env s sbd fs (dictSet res key ("error: " ++ env.copyErr p dst)) ps
      else
        if env.copyOk p sbd then
          backupPaths env s sbd (fs.copyFileToDir p sbd) (dictSet res key "success") ps
        else
          backupPaths env s sbd fs (dictSet res key ("error: " ++ env.copyErr p sbd)) ps
    else
      backupPaths env s sbd fs (dictSet res key "path_not_found") ps

/-- The `service` loop of `TelecomBackup.backup_configurations`
(lines 69-95): make the per-service staging directory and process its
configured paths. -/
def backupServices (env : Env) (cbd : FPath) :
    FS → Dict → List (String × List FPath) → FS × Dict
  | fs, res, [] => (fs, res)
  | fs, res, (s, ps) :: rest =>
    let fs1 := (fs.mkdir (cbd ++ [s]))
    let r := backupPaths env s (cbd ++ [s]) fs1 res ps
    backupServices env cbd r.1 r.2 rest

/-- `TelecomBackup.backup_configurations` (lines 60-106): stage every
configured path under `backup_dir/config_{ts}`, archive the staging tree as
`config_backup_{ts}.tar.gz`, delete the staging tree, return the outcome
map. -/
def backup_configurations (env : Env) (cfg : List (String × List FPath))
    (bdir : FPath) (ts : String) (w : World) : Dict × World :=
  let cbd := bdir ++ ["config_" ++ ts]
  let fs0 := w.fs.mkdir cbd
  let r := backupServices env cbd fs0 [] cfg
  let ar := tarAdd r.1 cbd ("config_" ++ ts)
  let fs2 := r.1.rmtree cbd
  (r.2,
   { fs := fs2, dbs := w.dbs,
     archives := fun q =>
       if q = bdir ++ ["config_backup_" ++ ts ++ ".tar.gz"] then some ar
       else w.archives q })

/-- The per-database loop of `TelecomBackup.backup_databases`
(lines 129-164): dump, gzip, delete the uncompressed dump, record the
outcome; a failing dump records `error: ...` and the loop continues.  The
returned list is the sequence of databases for which `mysqldump` was
invoked. -/
def dumpDbs (denv : DbEnv) (dbd : FPath) (ts : String) :
    FS → Dict → List String → FS × Dict × List String
  | fs, res, [] => (fs, res, [])
  | fs, res, db :: rest =>
    let sqlPath := dbd ++ [db ++ "_" ++ ts ++ ".sql"]
    let fs1 := fs.writeFile sqlPath (denv.dumpOut db)
    if denv.dumpExit db then
      let fs2 := fs1.writeFile (dbd ++ [db ++ "_" ++ ts ++ ".sql.gz"]) (denv.dumpOut db)
      let fs3 := fs2.unlink sqlPath
      let r := dumpDbs denv dbd ts fs3 (dictSet res db "success") rest
      (r.1, r.2.1, db :: r.2.2)
    else
      let r := dumpDbs denv dbd ts fs1 (dictSet res db ("error: " ++ denv.dumpErr db)) rest
      (r.1, r.2.1, db :: r.2.2)

/-- `TelecomBackup.backup_databases` (lines 108-194): make the staging
directory, gate on the `systemctl is-active mariadb` liveness probe, dump
each configured database, capture the Galera cluster status, archive and
delete the staging tree.  The third component is the sequence of databases
for which a dump was attempted. -/
def backup_databases (denv : DbEnv) (databases : List String) (bdir : FPath)
    (ts : String) (w : World) : Dict × World × List String :=
  let dbd := bdir ++ ["database_" ++ ts]
  let fs0 := w.fs.mkdir dbd
  if !denv.statusOk then
    ([("database_check", "error: " ++ denv.statusErr)], { w with fs := fs0 }, [])
  else if !denv.mariadbActive then
    ([("database_service", "not_running")], { w with fs := fs0 }, [])
  else
    let r := dumpDbs denv dbd ts fs0 [] databases
    let fs2 := r.1.writeFile (dbd ++ ["galera_cluster_info_" ++ ts ++ ".txt"]) denv.clusterOut
    let res2 := dictSet r.2.1 "galera_cluster_info"
      (if denv.clusterExit then "success" else "error: " ++ denv.clusterErr)
    let ar := tarAdd fs2 dbd ("database_" ++ ts)
    let fs3 := fs2.rmtree dbd
    (res2,
     { fs := fs3, dbs := w.dbs,
       archives := fun q =>
         if q = bdir ++ ["database_backup_" ++ ts ++ ".tar.gz"] then some ar
         else w.archives q }, r.2.2)

/-- Observable events of a full-backup run. -/
inductive BackupEvent
  | attempt (component : String)
  | writeMetadata (name : String)
deriving DecidableEq

/-- One `try/except` block of `TelecomBackup.create_full_backup`
(lines 264-286): the component either returns its outcome map or raises, in
which case the exception text is recorded; either way the component was
attempted. -/
def attemptComponent (name : String) (r : Except String Dict) :
    (String × Dict) × List BackupEvent :=
  match r with
  | .ok d => ((name, d), [.attempt name])
  | .error e => ((name, [("error", e)]), [.attempt name])

/-- The metadata record serialized by `create_full_backup`. -/
structure FullBackupInfo where
  timestamp : String
  hostname : String
  backupType : String
  results : List (String × Dict)
deriving DecidableEq

/-- `TelecomBackup.create_full_backup` (lines 252-294) with the three
component calls abstracted to their observable result (normal return or
raised exception; each component's own behaviour is modelled separately):
attempt configuration, database and monitoring backups in order, then write
the single metadata file `backup_metadata_{ts}.json`. -/
def create_full_backup (ts hostname : String)
    (configR dbR monR : Except String Dict) : FullBackupInfo × List BackupEvent :=
  let c := attemptComponent "configurations" configR
  let d := attemptComponent "databases" dbR
  let m := attemptComponent "monitoring" monR
  let info : FullBackupInfo :=
    { timestamp := ts, hostname := hostname, backupType := "full",
      results := [c.1, d.1, m.1] }
  (info, c.2 ++ d.2 ++ m.2 ++ [.writeMetadata ("backup_metadata_" ++ ts ++ ".json")])

/-- The per-path loop of the specific-service branch of
`TelecomBackup.restore_configuration` (lines 344-352): if the staged source
exists, wholesale-replace the live path (`rmtree` then `copytree` for a
live directory, `copy2` otherwise); a staged source that is absent is
silently skipped.  A raising copy aborts with `false` (the `except` handler
of line 382). -/
def restorePathsService (env : Env) (serviceDir : FPath) :
    FS → List FPath → Bool × FS
  | fs, [] => (true, fs)
  | fs, p :: ps =>
    let source := serviceDir ++ [baseName p]
    if fs.pathExists source then
      if fs.dirs p then
        if env.copyOk source p then
          restorePathsService env serviceDir ((fs.rmtree p).copytree source p) ps
        else (false, fs)
      else
        if env.copyOk source p then
          restorePathsService env serviceDir (fs.copyFile source p) ps
        else (false, fs)
    else restorePathsService env serviceDir fs ps

/-- The per-path body of the restore-all branch of
`TelecomBackup.restore_configuration` (lines 361-374): clear the live
destination if it exists (recursively for a directory, `unlink` for a
file), then copy the staged source over it. -/
def restorePathsAll (env : Env) (serviceDir : FPath) :
    FS → List FPath → Bool × FS
  | fs, [] => (true, fs)
  | fs, p :: ps =>
    let source := serviceDir ++ [baseName p]
    if fs.pathExists source then
      if env.copyOk source p then
        let fs1 := if fs.pathExists p then
            (if fs.dirs p then fs.rmtree p else fs.unlink p) else fs
        let fs2 := if fs1.dirs source then fs1.copytree source p else fs1.copyFile source p
        restorePathsAll env serviceDir fs2 ps
      else (false, fs)
    else restorePathsAll env serviceDir fs ps

/-- The service loop of the restore-all branch of
`TelecomBackup.restore_configuration` (lines 358-374). -/
def restoreServicesAll (env : Env) (configDir : FPath) :
    FS → List (String × List FPath) → Bool × FS
  | fs, [] => (true, fs)
  | fs, (s, ps) :: rest =>
    let serviceDir := configDir ++ [s]
    if fs.pathExists serviceDir then
      let r := restorePathsAll env serviceDir fs ps
      if r.1 then restoreServicesAll env configDir r.2 rest else (false, r.2)
    else restoreServicesAll env configDir fs rest

/-- `TelecomBackup.restore_configuration` (lines 320-384): resolve the
archive (fail if absent), extract it into the staging directory
`temp_restore_{ts}`, overlay either the named service's registered paths or
every registered service onto the live tree, and delete the staging
directory only when every step succeeded; the failure returns leave it in
place. -/
def restore_configuration (env : Env) (cfg : List (String × List FPath))
    (bdir : FPath) (ts : String) (service : Option String) (w : World) :
    Bool × World :=
  let archivePath := bdir ++ ["config_backup_" ++ ts ++ ".tar.gz"]
  match w.archives archivePath with
  | none => (false, w)
  | some ar =>
    let temp := bdir ++ ["temp_restore_" ++ ts]
    let fs1 := (w.fs.mkdir temp).extractAll ar temp
    let configDir := temp ++ ["config_" ++ ts]
    match service with
    | some s =>
      let serviceDir := configDir ++ [s]
      if fs1.pathExists serviceDir then
        let r := restorePathsService env serviceDir fs1 (lookupPaths cfg s)
        if r.1 then (true, { w with fs := r.2.rmtree temp })
        else (false, { w with fs := r.2 })
      else (false, { w with fs := fs1 })
    | none =>
      let r := restoreServicesAll env configDir fs1 cfg
      if r.1 then (true, { w with fs := r.2.rmtree temp })
      else (false, { w with fs := r.2 })

/-- The per-database loop of `TelecomBackup.restore_database`
(lines 408-426): a missing dump artifact or a non-zero `mysql` exit aborts
immediately with `false`.  The third component is the sequence of databases
for which the `mysql` restore command was invoked. -/
def restoreDbs (denv : DbEnv) (dbDir : FPath) (ts : String) (fs : FS) :
    (String → Option String) → List String → Bool × (String → Option String) × List String
  | dbs, [] => (true, dbs, [])
  | dbs, db :: rest =>
    let sqlFile := dbDir ++ [db ++ "_" ++ ts ++ ".sql.gz"]
    if fs.pathExists sqlFile then
      if denv.restoreExit db then
        let dbs1 := fun d => if d = db then fs.files sqlFile else dbs d
        let r := restoreDbs denv dbDir ts fs dbs1 rest
        (r.1, r.2.1, db :: r.2.2)
      else (false, dbs, [db])
    else (false, dbs, [])

/-- `TelecomBackup.restore_database` (lines 386-436): resolve the archive
(fail if absent), extract it into the staging directory
`temp_db_restore_{ts}`, stream each requested database's dump into `mysql`
fail-fast, and delete the staging directory only on the all-success path.
The third component is the sequence of attempted `mysql` invocations. -/
def restore_database (denv : DbEnv) (databases : List String) (bdir : FPath)
    (ts : String) (database : Option String) (w : World) :
    Bool × World × List String :=
  let archivePath := bdir ++ ["database_backup_" ++ ts ++ ".tar.gz"]
  match w.archives archivePath with
  | none => (false, w, [])
  | some ar =>
    let temp := bdir ++ ["temp_db_restore_" ++ ts]
    let fs1 := (w.fs.mkdir temp).extractAll ar temp
    let dbDir := temp ++ ["database_" ++ ts]
    let toRestore := match database with
      | some d => [d]
      | none => databases
    let r := restoreDbs denv dbDir ts fs1 w.dbs toRestore
    if r.1 then (true, { w with fs := fs1.rmtree temp, dbs := r.2.1 }, r.2.2)
    else (false, { w with fs := fs1, dbs := r.2.1 }, r.2.2)

/-- Python `str.replace(pat, repl)` on character lists: replace every
leftmost non-overlapping occurrence.  (For the empty pattern Python
interleaves the replacement; the call sites only use non-empty patterns and
the guard keeps the function total.) -/
def replaceL (pat repl : List Char) : List Char → List Char
  | [] => []
  | c :: rest =>
    if pat.isPrefixOf (c :: rest) && !pat.isEmpty then
      repl ++ replaceL pat repl (rest.drop (pat.length - 1))
    else c :: replaceL pat repl rest
termination_by s => s.length
decreasing_by
  · simp only [List.length_drop, List.length_cons]
    omega
  · simp

/-- `Path.glob("*backup_*.tar.gz")` applied to a filename: the name splits
as `x ++ "backup_" ++ y ++ ".tar.gz"`, i.e. it ends in `.tar.gz` and
`backup_` occurs ending at or before the suffix. -/
def globArchive (name : List Char) : Bool :=
  (".tar.gz".toList.isSuffixOf name) &&
    (List.range (name.length + 1)).any (fun i =>
      decide (i + 14 ≤ name.length) && "backup_".toList.isPrefixOf (name.drop i))

/-- The metadata filename `cleanup_old_backups` derives from an archive
filename (lines 454-456): substitute `backup_` with `metadata_` and
`.tar.gz` with `.json`. -/
def deriveMetaName (name : List Char) : List Char :=
  replaceL ".tar.gz".toList ".json".toList
    (replaceL "backup_".toList "metadata_".toList name)

/-- The archive filename written by the program for a backup type. -/
def archiveName (ty ts : List Char) : List Char :=
  ty ++ "_backup_".toList ++ ts ++ ".tar.gz".toList

/-- The metadata filename written by `create_full_backup`. -/
def metadataFileName (ts : List Char) : List Char :=
  "backup_metadata_".toList ++ ts ++ ".json".toList

/-- The three backup types whose archives the program creates. -/
def archiveTypes : List (List Char) :=
  ["config".toList, "database".toList, "monitoring".toList]

/-- Timestamps produced by `create_timestamp` (`strftime("%Y%m%d_%H%M%S")`)
consist of digits and underscores. -/
def tsChars (ts : List Char) : Prop := ∀ c ∈ ts, c.isDigit = true ∨ c = '_'

/-- A directory entry of the backup root: a filename and its `st_mtime`. -/
structure RootFile where
  name : List Char
  mtime : Int
deriving DecidableEq

/-- The body of the loop of `TelecomBackup.cleanup_old_backups`
(lines 445-458) for one glob-matched archive: if its mtime is strictly
before the cutoff, unlink it, count it, and unlink the derived metadata
filename when such a file exists (metadata removal is not counted). -/
def cleanupStep (cutoff : Int) (st : List RootFile × Nat) (f : RootFile) :
    List RootFile × Nat :=
  if f.mtime < cutoff then
    let files1 := st.1.filter (fun g => !(g.name == f.name))
    let mname := deriveMetaName f.name
    let files2 := if files1.any (fun g => g.name == mname) then
        files1.filter (fun g => !(g.name == mname))
      else files1
    (files2, st.2 + 1)
  else st

/-- `TelecomBackup.cleanup_old_backups` (lines 438-461): iterate over the
files matching `*backup_*.tar.gz` (the glob list is taken up front; the
loop's deletions never touch a later glob match because metadata names do
not match the glob), deleting those strictly older than
`now - keep_days` days together with their derived metadata filename.
Returns the surviving entries and the count of removed archives. -/
def cleanup_old_backups (keepDays now : Int) (root : List RootFile) :
    List RootFile × Nat :=
  let cutoff := now - keepDays * 86400
  (root.filter (fun f => globArchive f.name)).foldl (cleanupStep cutoff) (root, 0)

def c3Env : Env := { copyOk := fun _ _ => true, copyErr := fun _ _ => "" }

def c3World : World :=
  { fs := { files := fun _ => none, dirs := fun _ => false },
    archives := fun q =>
      if q = ["b", "config_backup_T.tar.gz"] then
        some { afiles := fun _ => none, adirs := fun _ => false }
      else none,
    dbs := fun _ => none }

def c6Ar : Archive :=
  { afiles := fun q =>
      if q = ["database_T", "d1_T.sql.gz"] then some "dump1"
      else if q = ["database_T", "d2_T.sql.gz"] then some "dump2"
      else none,
    adirs := fun _ => false }

def c6Denv : DbEnv :=
  { statusOk := true, mariadbActive := true, statusErr := "",
    dumpExit := fun _ => true, dumpOut := fun _ => "", dumpErr := fun _ => "",
    restoreExit := fun d => d == "d1", clusterExit := true, clusterOut := "",
    clusterErr := "" }

def c6World : World :=
  { fs := { files := fun _ => none, dirs := fun _ => false },
    archives := fun q =>
      if q = ["b", "database_backup_T.tar.gz"] then some c6Ar else none,
    dbs := fun _ => none }


def c8ts1 : List Char := "20240101_000000".toList

def c8ts2 : List Char := "20240301_000000".toList

def c8Root : List RootFile :=
  [{ name := archiveName "config".toList c8ts1, mtime := 0 },
   { name := archiveName "database".toList c8ts2, mtime := 8640000 },
   { name := metadataFileName c8ts1, mtime := 0 }]


/-- The outcome key `service_basename` used by `backup_configurations`. -/
def pairKey (s : String) (p : FPath) : String := s ++ "_" ++ baseName p

/-- The outcome `backup_configurations` records for one configured
`(service, path)` pair, as a function of the filesystem at backup time. -/
def pairOutcome (env : Env) (cbd : FPath) (fs : FS) (s : String) (p : FPath) :
    String :=
  if fs.pathExists p then
    if fs.dirs p then
      if env.copyOk p (cbd ++ [s] ++ [baseName p]) then "success"
      else "error: " ++ env.copyErr p (cbd ++ [s] ++ [baseName p])
    else
      if env.copyOk p (cbd ++ [s]) then "success"
      else "error: " ++ env.copyErr p (cbd ++ [s])
  else "path_not_found"

/-- All outcome keys of a configuration registry, in processing order. -/
def allKeys (cfg : List (String × List FPath)) : List String :=
  cfg.flatMap (fun e => e.2.map (fun p => pairKey e.1 p))

/-- The full outcome map of a configuration backup, one entry per
configured pair in processing order. -/
def expectedOutcomes (env : Env) (cbd : FPath) (fs : FS)
    (cfg : List (String × List FPath)) : Dict :=
  cfg.flatMap (fun e => e.2.map (fun p => (pairKey e.1 p, pairOutcome env cbd fs e.1 p)))

/-- `fs` agrees with `fs0` everywhere outside the subtree of `b`. -/
def sameOutside (b : FPath) (fs0 fs : FS) : Prop :=
  ∀ q, ¬ b <+: q → (fs.files q = fs0.files q ∧ fs.dirs q = fs0.dirs q)

/-- `fs` agrees with `fs0` everywhere inside the subtree of `u`. -/
def untouchedUnder (u : FPath) (fs0 fs : FS) : Prop :=
  ∀ q, u <+: q → (fs.files q = fs0.files q ∧ fs.dirs q = fs0.dirs q)

/-- The staged filesystem a configuration backup archives, before the
staging tree is deleted. -/
def configBackupFS (env : Env) (bdir : FPath) (ts : String) (w : World) : FS :=
  (backupServices env (bdir ++ ["config_" ++ ts])
    (w.fs.mkdir (bdir ++ ["config_" ++ ts])) [] config_paths).1

def c1Env : Env := { copyOk := fun _ _ => true, copyErr := fun _ _ => "" }

def c1World : World :=
  { fs := { files := fun q => if q = ["etc", "kamailio", "kamailio.cfg"]
              then some "v1" else none,
            dirs := fun q => decide (q = ["etc", "kamailio"]) },
    archives := fun _ => none, dbs := fun _ => none }

@[simp] lemma FS.mkdir_files (fs : FS) (t : FPath) : (fs.mkdir t).files = fs.files := rfl

@[simp] lemma FS.mkdir_dirs (fs : FS) (t q : FPath) :
    (fs.mkdir t).dirs q = if q = t then true else fs.dirs q := rfl

@[simp] lemma FS.rmtree_files (fs : FS) (p q : FPath) :
    (fs.rmtree p).files q = if p.isPrefixOf q then none else fs.files q := rfl

@[simp] lemma FS.rmtree_dirs (fs : FS) (p q : FPath) :
    (fs.rmtree p).dirs q = if p.isPrefixOf q then false else fs.dirs q := rfl

@[simp] lemma FS.copytree_files (fs : FS) (src dst q : FPath) :
    (fs.copytree src dst).files q =
      if dst.isPrefixOf q && (fs.files (src ++ q.drop dst.length)).isSome then
        fs.files (src ++ q.drop dst.length)
      else fs.files q := rfl

@[simp] lemma FS.copytree_dirs (fs : FS) (src dst q : FPath) :
    (fs.copytree src dst).dirs q =
      (fs.dirs q || (dst.isPrefixOf q && fs.dirs (src ++ q.drop dst.length))) := rfl

@[simp] lemma FS.copyFile_files (fs : FS) (src dst q : FPath) :
    (fs.copyFile src dst).files q = if q = dst then fs.files src else fs.files q := rfl

@[simp] lemma FS.copyFile_dirs (fs : FS) (src dst : FPath) :
    (fs.copyFile src dst).dirs = fs.dirs := rfl

@[simp] lemma FS.copyFileToDir_files (fs : FS) (src d q : FPath) :
    (fs.copyFileToDir src d).files q =
      if q = d ++ [(src.getLast?).getD ""] then fs.files src else fs.files q := rfl

@[simp] lemma FS.copyFileToDir_dirs (fs : FS) (src d : FPath) :
    (fs.copyFileToDir src d).dirs = fs.dirs := rfl

@[simp] lemma FS.unlink_files (fs : FS) (p q : FPath) :
    (fs.unlink p).files q = if q = p then none else fs.files q := rfl

@[simp] lemma FS.unlink_dirs (fs : FS) (p : FPath) : (fs.unlink p).dirs = fs.dirs := rfl

@[simp] lemma FS.writeFile_files (fs : FS) (p : FPath) (c : String) (q : FPath) :
    (fs.writeFile p c).files q = if q = p then some c else fs.files q := rfl

@[simp] lemma FS.writeFile_dirs (fs : FS) (p : FPath) (c : String) :
    (fs.writeFile p c).dirs = fs.dirs := rfl

@[simp] lemma FS.extractAll_files (fs : FS) (ar : Archive) (dst q : FPath) :
    (fs.extractAll ar dst).files q =
      if dst.isPrefixOf q && (ar.afiles (q.drop dst.length)).isSome then
        ar.afiles (q.drop dst.length)
      else fs.files q := rfl

@[simp] lemma FS.extractAll_dirs (fs : FS) (ar : Archive) (dst q : FPath) :
    (fs.extractAll ar dst).dirs q =
      (fs.dirs q || (dst.isPrefixOf q && ar.adirs (q.drop dst.length))) := rfl

@[simp] lemma tarAdd_afiles (fs : FS) (dir : FPath) (arc root : String) (rest : FPath) :
    (tarAdd fs dir arc).afiles (root :: rest) =
      if root = arc then fs.files (dir ++ rest) else none := rfl

@[simp] lemma tarAdd_adirs (fs : FS) (dir : FPath) (arc root : String) (rest : FPath) :
    (tarAdd fs dir arc).adirs (root :: rest) =
      (decide (root = arc) && fs.dirs (dir ++ rest)) := rfl

lemma prefixComparable {α : Type} {l₁ l₂ l₃ : List α} (h₁ : l₁ <+: l₃)
    (h₂ : l₂ <+: l₃) : l₁ <+: l₂ ∨ l₂ <+: l₁ := by
  exact List.prefix_or_prefix_of_prefix h₁ h₂

lemma noSharedDescendant {a b q : FPath} (hab : ¬ a <+: b) (hba : ¬ b <+: a)
    (ha : a <+: q) : ¬ b <+: q := by
  intro hb
  rcases prefixComparable ha hb with h | h
  · exact hab h
  · exact hba h

/-- C2: every invocation of a full backup attempts the configuration,
database and monitoring components in order and then writes exactly one
metadata file, named `backup_metadata_{timestamp}.json`, whatever the three
components returned or raised; the serialized record carries exactly the
three component keys. -/
theorem create_full_backup_one_metadata_after_attempts (ts hostname : String)
    (configR dbR monR : Except String Dict) :
    (create_full_backup ts hostname configR dbR monR).2 =
      [.attempt "configurations", .attempt "databases", .attempt "monitoring",
       .writeMetadata ("backup_metadata_" ++ ts ++ ".json")] ∧
    (create_full_backup ts hostname configR dbR monR).1.results.map Prod.fst =
      ["configurations", "databases", "monitoring"] := by
  cases configR <;> cases dbR <;> cases monR <;>
    simp [create_full_backup, attemptComponent]

/-- C4: when the `systemctl is-active mariadb` probe answers without raising
and reports the engine inactive, `backup_databases` returns the single
fatal outcome map and invokes no per-database dump. -/
theorem backup_databases_inactive_no_dumps (denv : DbEnv) (databases : List String)
    (bdir : FPath) (ts : String) (w : World)
    (hok : denv.statusOk = true) (hact : denv.mariadbActive = false) :
    (backup_databases denv databases bdir ts w).1 =
      [("database_service", "not_running")] ∧
    (backup_databases denv databases bdir ts w).2.2 = [] := by
  simp [backup_databases, hok, hact]

/-- Witness for C4 at a concrete inactive engine. -/
theorem backup_databases_inactive_no_dumps_witness :
    (backup_databases
      { statusOk := true, mariadbActive := false, statusErr := "",
        dumpExit := fun _ => true, dumpOut := fun _ => "", dumpErr := fun _ => "",
        restoreExit := fun _ => true, clusterExit := true, clusterOut := "",
        clusterErr := "" }
      db_config_databases ["opt", "backups"] "20240101_000000"
      { fs := { files := fun _ => none, dirs := fun _ => false },
        archives := fun _ => none, dbs := fun _ => none }).1 =
      [("database_service", "not_running")] := by
  exact (backup_databases_inactive_no_dumps _ _ _ _ _ rfl rfl).1

/-- C7: when no archive file exists for the requested timestamp and restore
type, both restore procedures fail before building any staging state and
return the world unchanged: no live filesystem path and no database is
modified. -/
theorem restore_missing_archive_unchanged (env : Env) (denv : DbEnv)
    (cfg : List (String × List FPath)) (databases : List String) (bdir : FPath)
    (ts : String) (svc db : Option String) (w : World)
    (hc : w.archives (bdir ++ ["config_backup_" ++ ts ++ ".tar.gz"]) = none)
    (hd : w.archives (bdir ++ ["database_backup_" ++ ts ++ ".tar.gz"]) = none) :
    restore_configuration env cfg bdir ts svc w = (false, w) ∧
    restore_database denv databases bdir ts db w = (false, w, []) := by
  constructor
  · simp [restore_configuration, hc]
  · simp [restore_database, hd]

/-- Witness for C7 on a world with no archives at all. -/
theorem restore_missing_archive_unchanged_witness :
    (restore_configuration
        { copyOk := fun _ _ => true, copyErr := fun _ _ => "" } config_paths
        ["opt", "backups"] "20240101_000000" none
        { fs := { files := fun _ => none, dirs := fun _ => false },
          archives := fun _ => none, dbs := fun _ => none }).1 = false := by
  have h := restore_missing_archive_unchanged
    { copyOk := fun _ _ => true, copyErr := fun _ _ => "" }
    { statusOk := true, mariadbActive := true, statusErr := "",
      dumpExit := fun _ => true, dumpOut := fun _ => "", dumpErr := fun _ => "",
      restoreExit := fun _ => true, clusterExit := true, clusterOut := "",
      clusterErr := "" }
    config_paths db_config_databases ["opt", "backups"] "20240101_000000"
    none none
    { fs := { files := fun _ => none, dirs := fun _ => false },
      archives := fun _ => none, dbs := fun _ => none } rfl rfl
  rw [h.1]


/-- C3 counterexample: restoring service `kamailio` from an archive that has
no `kamailio` entry takes the failure exit of line 355 after the staging
directory `temp_restore_T` was created — and leaves that directory in
place, refuting deletion on every exit path. -/
theorem restore_config_staging_leak_counterexample :
    (restore_configuration c3Env config_paths ["b"] "T" (some "kamailio") c3World).1
        = false ∧
    (restore_configuration c3Env config_paths ["b"] "T" (some "kamailio") c3World).2.fs.dirs
        ["b", "temp_restore_T"] = true := by
  decide

lemma lookupPaths_mem (cfg : List (String × List FPath)) (s : String) (p : FPath)
    (h : p ∈ lookupPaths cfg s) : ∃ ps, (s, ps) ∈ cfg ∧ p ∈ ps := by
  unfold lookupPaths at h
  rcases he : cfg.find? (fun e => e.1 == s) with _ | e
  · rw [he] at h; simp at h
  · rw [he] at h
    have hmem := List.mem_of_find?_eq_some he
    have hpred := List.find?_some he
    simp only [beq_iff_eq] at hpred
    exact ⟨e.2, by rw [← hpred]; exact hmem, h⟩

lemma restorePathsService_keeps_dir (env : Env) (sdir temp : FPath) :
    ∀ (ps : List FPath) (fs : FS), fs.dirs temp = true →
      (∀ p ∈ ps, ¬ p <+: temp) →
      ((restorePathsService env sdir fs ps).2).dirs temp = true := by
  intro ps
  induction ps with
  | nil => intro fs h _; exact h
  | cons p ps ih =>
    intro fs h hp
    have hpt : ¬ p <+: temp := hp p (by simp)
    have hps : ∀ q ∈ ps, ¬ q <+: temp := fun q hq => hp q (by simp [hq])
    simp only [restorePathsService]
    split
    · split
      · split
        · refine ih _ ?_ hps
          simp [h, hpt]
        · exact h
      · split
        · refine ih _ ?_ hps
          simp [h]
        · exact h
    · exact ih _ h hps

lemma clearLive_keeps_dir (fs : FS) (p temp : FPath) (h : fs.dirs temp = true)
    (hpt : ¬ p <+: temp) :
    (if fs.pathExists p then (if fs.dirs p then fs.rmtree p else fs.unlink p)
      else fs).dirs temp = true := by
  split
  · split
    · simp [h, hpt]
    · simp [h]
  · exact h

lemma copyOver_keeps_dir (fs1 : FS) (source p temp : FPath)
    (h1 : fs1.dirs temp = true) :
    (if fs1.dirs source then fs1.copytree source p
      else fs1.copyFile source p).dirs temp = true := by
  split <;> simp [h1]

lemma restorePathsAll_keeps_dir (env : Env) (sdir temp : FPath) :
    ∀ (ps : List FPath) (fs : FS), fs.dirs temp = true →
      (∀ p ∈ ps, ¬ p <+: temp) →
      ((restorePathsAll env sdir fs ps).2).dirs temp = true := by
  intro ps
  induction ps with
  | nil => intro fs h _; exact h
  | cons p ps ih =>
    intro fs h hp
    have hpt : ¬ p <+: temp := hp p (by simp)
    have hps : ∀ q ∈ ps, ¬ q <+: temp := fun q hq => hp q (by simp [hq])
    simp only [restorePathsAll]
    split
    · split
      · refine ih _ ?_ hps
        exact copyOver_keeps_dir _ _ _ _ (clearLive_keeps_dir fs p temp h hpt)
      · exact h
    · exact ih _ h hps

lemma restoreServicesAll_keeps_dir (env : Env) (cdir temp : FPath) :
    ∀ (cfg : List (String × List FPath)) (fs : FS), fs.dirs temp = true →
      (∀ s ps p, (s, ps) ∈ cfg → p ∈ ps → ¬ p <+: temp) →
      ((restoreServicesAll env cdir fs cfg).2).dirs temp = true := by
  intro cfg
  induction cfg with
  | nil => intro fs h _; exact h
  | cons e rest ih =>
    intro fs h hp
    have hpe : ∀ p ∈ e.2, ¬ p <+: temp := fun p hq => hp e.1 e.2 p (by simp) hq
    have hps : ∀ s ps p, (s, ps) ∈ rest → p ∈ ps → ¬ p <+: temp :=
      fun s ps p hm hq => hp s ps p (by simp [hm]) hq
    rcases e with ⟨s, ps⟩
    simp only [restoreServicesAll]
    split
    · split
      · exact ih _ (restorePathsAll_keeps_dir env _ temp ps fs h hpe) hps
      · exact restorePathsAll_keeps_dir env _ temp ps fs h hpe
    · exact ih _ h hps

/-- C3 amended: once the restore procedures have created their extraction
staging directory, they delete it only on the all-success exit path; on
every failure exit taken after the staging directory was created (requested
service absent from the archive, a raising copy, a missing dump artifact, a
failing restore command) the staging directory is left in place. -/
theorem restore_staging_deleted_on_success_only (env : Env) (denv : DbEnv)
    (cfg : List (String × List FPath)) (databases : List String) (bdir : FPath)
    (ts : String) (svc dbsel : Option String) (w : World)
    (hp : ∀ s ps p, (s, ps) ∈ cfg → p ∈ ps →
      ¬ p <+: (bdir ++ ["temp_restore_" ++ ts])) :
    ((restore_configuration env cfg bdir ts svc w).1 = true →
      (restore_configuration env cfg bdir ts svc w).2.fs.dirs
        (bdir ++ ["temp_restore_" ++ ts]) = false) ∧
    ((restore_configuration env cfg bdir ts svc w).1 = false →
      w.archives (bdir ++ ["config_backup_" ++ ts ++ ".tar.gz"]) ≠ none →
      (restore_configuration env cfg bdir ts svc w).2.fs.dirs
        (bdir ++ ["temp_restore_" ++ ts]) = true) ∧
    ((restore_database denv databases bdir ts dbsel w).1 = true →
      (restore_database denv databases bdir ts dbsel w).2.1.fs.dirs
        (bdir ++ ["temp_db_restore_" ++ ts]) = false) ∧
    ((restore_database denv databases bdir ts dbsel w).1 = false →
      w.archives (bdir ++ ["database_backup_" ++ ts ++ ".tar.gz"]) ≠ none →
      (restore_database denv databases bdir ts dbsel w).2.1.fs.dirs
        (bdir ++ ["temp_db_restore_" ++ ts]) = true) := by
  have hcfg : ∀ (ar : Archive),
      (((w.fs.mkdir (bdir ++ ["temp_restore_" ++ ts])).extractAll ar
        (bdir ++ ["temp_restore_" ++ ts]))).dirs (bdir ++ ["temp_restore_" ++ ts])
        = true := by
    intro ar; simp
  have hdbt : ∀ (ar : Archive),
      (((w.fs.mkdir (bdir ++ ["temp_db_restore_" ++ ts])).extractAll ar
        (bdir ++ ["temp_db_restore_" ++ ts]))).dirs
        (bdir ++ ["temp_db_restore_" ++ ts]) = true := by
    intro ar; simp
  refine ⟨?_, ?_, ?_, ?_⟩
  · simp only [restore_configuration]
    split
    · simp
    · split
      · split
        · split
          · intro _; simp
          · intro h; simp at h
        · intro h; simp at h
      · split
        · intro _; simp
        · intro h; simp at h
  · simp only [restore_configuration]
    split
    · rename_i heq
      intro _ hne; exact absurd heq hne
    · rename_i ar heq
      split
      · rename_i s
        split
        · split
          · intro h; simp at h
          · intro _ _
            refine restorePathsService_keeps_dir env _ _ _ _ (hcfg ar) ?_
            intro p hmem
            rcases lookupPaths_mem cfg s p hmem with ⟨ps, hin, hpin⟩
            exact hp s ps p hin hpin
        · intro _ _
          exact hcfg ar
      · split
        · intro h; simp at h
        · intro _ _
          exact restoreServicesAll_keeps_dir env _ _ cfg _ (hcfg ar) hp
  · simp only [restore_database]
    split
    · simp
    · split
      · intro _; simp
      · intro h; simp at h
  · simp only [restore_database]
    split
    · rename_i heq
      intro _ hne; exact absurd heq hne
    · rename_i ar heq
      split
      · intro h; simp at h
      · intro _ _
        exact hdbt ar

/-- Witness for the amended C3 on a concrete failing restore. -/
theorem restore_staging_deleted_on_success_only_witness :
    (restore_configuration c3Env config_paths ["b"] "T" (some "kamailio") c3World).2.fs.dirs
      (["b"] ++ ["temp_restore_" ++ "T"]) = true := by
  have h := restore_staging_deleted_on_success_only c3Env
    { statusOk := true, mariadbActive := true, statusErr := "",
      dumpExit := fun _ => true, dumpOut := fun _ => "", dumpErr := fun _ => "",
      restoreExit := fun _ => true, clusterExit := true, clusterOut := "",
      clusterErr := "" }
    config_paths db_config_databases ["b"] "T" (some "kamailio") none c3World
    (by intro s ps p hm hpm; fin_cases hm <;> fin_cases hpm <;> decide)
  refine h.2.1 (by decide) ?_
  intro hnone
  rw [show (["b"] ++ ["config_backup_" ++ "T" ++ ".tar.gz"] : FPath)
      = ["b", "config_backup_T.tar.gz"] from by decide] at hnone
  simp [c3World] at hnone

lemma mkdir_extract_pathExists (fs : FS) (ar : Archive) (bdir : FPath)
    (t d nm : String) (h : (ar.afiles [d, nm]).isSome = true) :
    ((fs.mkdir (bdir ++ [t])).extractAll ar (bdir ++ [t])).pathExists
      (bdir ++ [t] ++ [d] ++ [nm]) = true := by
  simp [FS.pathExists, h]

lemma mkdir_extract_files (fs : FS) (ar : Archive) (bdir : FPath)
    (t d nm : String) (h : (ar.afiles [d, nm]).isSome = true) :
    ((fs.mkdir (bdir ++ [t])).extractAll ar (bdir ++ [t])).files
      (bdir ++ [t] ++ [d] ++ [nm]) = ar.afiles [d, nm] := by
  simp [h]

lemma mkdir_extract_pathExists_false (fs : FS) (ar : Archive) (bdir : FPath)
    (t d nm : String) (h1 : ar.afiles [d, nm] = none) (h2 : ar.adirs [d, nm] = false)
    (h3 : fs.files (bdir ++ [t] ++ [d] ++ [nm]) = none)
    (h4 : fs.dirs (bdir ++ [t] ++ [d] ++ [nm]) = false) :
    ((fs.mkdir (bdir ++ [t])).extractAll ar (bdir ++ [t])).pathExists
      (bdir ++ [t] ++ [d] ++ [nm]) = false := by
  simp [FS.pathExists, h1, h2]
  exact ⟨by simpa using h4, by simpa using h3⟩

/-- C6: a database restore over the list `[a, b, c]` whose `b` dump exits
non-zero fails immediately: `mysql` is invoked exactly for `a` and `b`, `c`
is never attempted, and `c`'s database contents are untouched. -/
theorem restore_database_fail_fast (denv : DbEnv) (bdir : FPath) (ts : String)
    (a b c : String) (w : World) (ar : Archive)
    (harch : w.archives (bdir ++ ["database_backup_" ++ ts ++ ".tar.gz"]) = some ar)
    (ha : (ar.afiles ["database_" ++ ts, a ++ "_" ++ ts ++ ".sql.gz"]).isSome = true)
    (hb : (ar.afiles ["database_" ++ ts, b ++ "_" ++ ts ++ ".sql.gz"]).isSome = true)
    (hexa : denv.restoreExit a = true) (hexb : denv.restoreExit b = false)
    (hca : c ≠ a) :
    (restore_database denv [a, b, c] bdir ts none w).1 = false ∧
    (restore_database denv [a, b, c] bdir ts none w).2.2 = [a, b] ∧
    (restore_database denv [a, b, c] bdir ts none w).2.1.dbs c = w.dbs c := by
  have h1 := mkdir_extract_pathExists w.fs ar bdir ("temp_db_restore_" ++ ts)
    ("database_" ++ ts) (a ++ "_" ++ ts ++ ".sql.gz") ha
  have h2 := mkdir_extract_pathExists w.fs ar bdir ("temp_db_restore_" ++ ts)
    ("database_" ++ ts) (b ++ "_" ++ ts ++ ".sql.gz") hb
  simp only [restore_database, harch]
  simp only [restoreDbs, h1, h2, hexa, hexb, if_true, if_false]
  simp [hca]

/-- Witness for C6 with databases `[d1, d2, d3]` where `d2`'s restore exits
non-zero: only `d1` and `d2` are attempted. -/
theorem restore_database_fail_fast_witness :
    (restore_database c6Denv ["d1", "d2", "d3"] ["b"] "T" none c6World).2.2 =
      ["d1", "d2"] := by
  have h := restore_database_fail_fast c6Denv ["b"] "T" "d1" "d2" "d3" c6World c6Ar
    (by rw [show (["b"] ++ ["database_backup_" ++ "T" ++ ".tar.gz"] : FPath)
          = ["b", "database_backup_T.tar.gz"] from by decide]
        simp [c6World])
    (by decide) (by decide) (by decide) (by decide) (by decide)
  exact h.2.1

/-- C10: a database restore aborts with failure as soon as a requested
database's dump artifact is absent from the extracted archive — over
`[a, b, c]` with `b`'s artifact missing, only `a` is attempted and the
operation fails — whereas the configuration-restore loop silently skips a
registered path whose staged source is absent and continues with the
remaining paths. -/
theorem restore_database_missing_artifact_vs_config_skip
    (denv : DbEnv) (env : Env) (bdir sdir : FPath) (ts : String)
    (a b c : String) (w : World) (ar : Archive) (fs : FS) (p : FPath)
    (ps : List FPath)
    (harch : w.archives (bdir ++ ["database_backup_" ++ ts ++ ".tar.gz"]) = some ar)
    (ha : (ar.afiles ["database_" ++ ts, a ++ "_" ++ ts ++ ".sql.gz"]).isSome = true)
    (hexa : denv.restoreExit a = true)
    (hb1 : ar.afiles ["database_" ++ ts, b ++ "_" ++ ts ++ ".sql.gz"] = none)
    (hb2 : ar.adirs ["database_" ++ ts, b ++ "_" ++ ts ++ ".sql.gz"] = false)
    (hb3 : w.fs.files (bdir ++ ["temp_db_restore_" ++ ts] ++ ["database_" ++ ts]
      ++ [b ++ "_" ++ ts ++ ".sql.gz"]) = none)
    (hb4 : w.fs.dirs (bdir ++ ["temp_db_restore_" ++ ts] ++ ["database_" ++ ts]
      ++ [b ++ "_" ++ ts ++ ".sql.gz"]) = false)
    (hskip : fs.pathExists (sdir ++ [baseName p]) = false) :
    (restore_database denv [a, b, c] bdir ts none w).1 = false ∧
    (restore_database denv [a, b, c] bdir ts none w).2.2 = [a] ∧
    restorePathsService env sdir fs (p :: ps) = restorePathsService env sdir fs ps := by
  have h1 := mkdir_extract_pathExists w.fs ar bdir ("temp_db_restore_" ++ ts)
    ("database_" ++ ts) (a ++ "_" ++ ts ++ ".sql.gz") ha
  have h2 := mkdir_extract_pathExists_false w.fs ar bdir ("temp_db_restore_" ++ ts)
    ("database_" ++ ts) (b ++ "_" ++ ts ++ ".sql.gz") hb1 hb2 hb3 hb4
  refine ⟨?_, ?_, ?_⟩
  · simp only [restore_database, harch]
    simp only [restoreDbs, h1, h2, hexa, if_true, if_false]
    simp
  · simp only [restore_database, harch]
    simp only [restoreDbs, h1, h2, hexa, if_true, if_false]
    simp
  · simp only [restorePathsService, hskip]
    simp

/-- Witness for C10: `d2`'s artifact is missing, so only `d1` is attempted;
and a configuration path whose staged source is missing is skipped. -/
theorem restore_database_missing_artifact_vs_config_skip_witness :
    (restore_database c6Denv ["d1", "d2missing", "d3"] ["b"] "T" none c6World).2.2 =
      ["d1"] := by
  have h := restore_database_missing_artifact_vs_config_skip c6Denv c3Env
    ["b"] ["sdir"] "T" "d1" "d2missing" "d3" c6World c6Ar
    { files := fun _ => none, dirs := fun _ => false } ["etc", "kamailio"] []
    (by rw [show (["b"] ++ ["database_backup_" ++ "T" ++ ".tar.gz"] : FPath)
          = ["b", "database_backup_T.tar.gz"] from by decide]
        simp [c6World])
    (by decide) (by decide) (by decide) (by decide) (by decide) (by decide)
    (by decide)
  exact h.2.1

lemma isPrefixOf_false_of_head_ne (pat : List Char) (hc d : Char)
    (rest : List Char) (hh : pat.head? = some hc) (hne : hc ≠ d) :
    pat.isPrefixOf (d :: rest) = false := by
  cases pat with
  | nil => simp at hh
  | cons a as =>
    have ha : a = hc := by simpa using hh
    have hbe : (a == d) = false := by simp [ha, hne]
    rw [show ((a :: as).isPrefixOf (d :: rest)) = ((a == d) && as.isPrefixOf rest)
      from rfl, hbe]
    simp

lemma replaceL_cons_not_prefixOf (pat repl : List Char) (c : Char)
    (rest : List Char) (h : pat.isPrefixOf (c :: rest) = false) :
    replaceL pat repl (c :: rest) = c :: replaceL pat repl rest := by
  rw [replaceL]
  simp [h]

lemma replaceL_head_occurrence (pat repl s : List Char) (c : Char)
    (pat' : List Char) (hp : pat = c :: pat') :
    replaceL pat repl (pat ++ s) = repl ++ replaceL pat repl s := by
  subst hp
  rw [List.cons_append, replaceL]
  have hpre : (c :: pat').isPrefixOf (c :: (pat' ++ s)) = true := by simp
  simp only [hpre, List.isEmpty_cons, Bool.not_false, Bool.and_self, if_true]
  have hlen : (c :: pat').length - 1 = pat'.length := by simp
  rw [hlen, List.drop_left]

lemma replaceL_append_left (pat repl : List Char) :
    ∀ (x s : List Char),
      (∀ i, i < x.length → pat.isPrefixOf ((x ++ s).drop i) = false) →
      replaceL pat repl (x ++ s) = x ++ replaceL pat repl s := by
  intro x
  induction x with
  | nil => intro s _; simp
  | cons d x' ih =>
    intro s h
    have h0 : pat.isPrefixOf (d :: (x' ++ s)) = false := by
      have := h 0 (by simp)
      simpa using this
    rw [List.cons_append, replaceL_cons_not_prefixOf _ _ _ _ h0, ih s ?_]
    · simp
    · intro i hi
      have := h (i + 1) (by simpa using Nat.succ_lt_succ hi)
      simpa using this

lemma replaceL_no_occurrence (pat repl s : List Char)
    (h : ∀ i, i < s.length → pat.isPrefixOf (s.drop i) = false) :
    replaceL pat repl s = s := by
  have := replaceL_append_left pat repl s [] (by simpa using h)
  simpa [replaceL] using this

lemma noStart_of_head_not_mem (pat : List Char) (hc : Char)
    (hh : pat.head? = some hc) (x s : List Char) (hx : hc ∉ x) :
    ∀ i, i < x.length → pat.isPrefixOf ((x ++ s).drop i) = false := by
  intro i hi
  rw [List.drop_append_of_le_length (Nat.le_of_lt hi),
    List.drop_eq_getElem_cons hi, List.cons_append]
  refine isPrefixOf_false_of_head_ne pat hc _ _ hh ?_
  intro hcd
  exact hx (hcd ▸ x.getElem_mem hi)

lemma tsChars_no_b (ts : List Char) (h : tsChars ts) : 'b' ∉ ts := by
  intro hm
  rcases h 'b' hm with hd | hu
  · exact absurd hd (by decide)
  · exact absurd hu (by decide)

lemma tsChars_no_dot (ts : List Char) (h : tsChars ts) : '.' ∉ ts := by
  intro hm
  rcases h '.' hm with hd | hu
  · exact absurd hd (by decide)
  · exact absurd hu (by decide)

lemma noOcc_of_head_not_mem (pat : List Char) (hc : Char)
    (hh : pat.head? = some hc) (s : List Char) (hs : hc ∉ s) :
    ∀ i, i < s.length → pat.isPrefixOf (s.drop i) = false := by
  intro i hi
  rw [List.drop_eq_getElem_cons hi]
  refine isPrefixOf_false_of_head_ne pat hc _ _ hh ?_
  intro hcd
  exact hs (hcd ▸ s.getElem_mem hi)

lemma first_replace_generic (pre ts : List Char) (hts : tsChars ts)
    (hpre : ∀ i, i < pre.length → "backup_".toList.isPrefixOf
      ((pre ++ ("backup_".toList ++ (ts ++ ".tar.gz".toList))).drop i) = false) :
    replaceL "backup_".toList "metadata_".toList
        (pre ++ ("backup_".toList ++ (ts ++ ".tar.gz".toList)))
      = pre ++ ("metadata_".toList ++ (ts ++ ".tar.gz".toList)) := by
  have hno : ∀ i, i < (ts ++ ".tar.gz".toList).length →
      "backup_".toList.isPrefixOf ((ts ++ ".tar.gz".toList).drop i) = false := by
    refine noOcc_of_head_not_mem _ 'b' (by decide) _ ?_
    intro hmem
    rcases List.mem_append.mp hmem with h | h
    · exact tsChars_no_b ts hts h
    · revert h; decide
  rw [replaceL_append_left _ _ _ _ hpre,
      replaceL_head_occurrence _ _ _ 'b' "ackup_".toList (by decide),
      replaceL_no_occurrence _ _ _ hno]

lemma second_replace_generic (x : List Char) (hx : '.' ∉ x) :
    replaceL ".tar.gz".toList ".json".toList (x ++ ".tar.gz".toList)
      = x ++ ".json".toList := by
  have h1 := noStart_of_head_not_mem ".tar.gz".toList '.' (by decide) x
    ".tar.gz".toList hx
  rw [replaceL_append_left _ _ _ _ h1]
  congr 1
  have h2 := replaceL_head_occurrence ".tar.gz".toList ".json".toList [] '.'
    "tar.gz".toList (by decide)
  simp only [List.append_nil, replaceL] at h2
  exact h2

lemma archiveName_split (ty ts : List Char) :
    archiveName ty ts =
      (ty ++ ['_']) ++ ("backup_".toList ++ (ts ++ ".tar.gz".toList)) := by
  unfold archiveName
  rw [show "_backup_".toList = ['_'] ++ "backup_".toList from by decide]
  simp [List.append_assoc]

lemma deriveMetaName_archiveName (ty ts : List Char) (hty : ty ∈ archiveTypes)
    (hts : tsChars ts) :
    deriveMetaName (archiveName ty ts) =
      (ty ++ ['_']) ++ ("metadata_".toList ++ (ts ++ ".json".toList)) := by
  have hfirst : replaceL "backup_".toList "metadata_".toList (archiveName ty ts)
      = (ty ++ ['_']) ++ ("metadata_".toList ++ (ts ++ ".tar.gz".toList)) := by
    fin_cases hty
    · rw [archiveName_split]
      exact first_replace_generic _ ts hts
        (noStart_of_head_not_mem _ 'b' (by decide) _ _ (by decide))
    · rw [archiveName_split]
      rw [show ("database".toList ++ ['_'])
          = "data".toList ++ ('b' :: "ase_".toList) from by decide]
      rw [List.append_assoc "data".toList, List.cons_append]
      have P : "backup_".toList.isPrefixOf
          ('b' :: ("ase_".toList ++ ("backup_".toList ++ (ts ++ ".tar.gz".toList))))
          = false := by rfl
      have hno : ∀ i, i < (ts ++ ".tar.gz".toList).length →
          "backup_".toList.isPrefixOf ((ts ++ ".tar.gz".toList).drop i) = false := by
        refine noOcc_of_head_not_mem _ 'b' (by decide) _ ?_
        intro hmem
        rcases List.mem_append.mp hmem with h | h
        · exact tsChars_no_b ts hts h
        · revert h; decide
      rw [replaceL_append_left _ _ "data".toList _
            (noStart_of_head_not_mem _ 'b' (by decide) _ _ (by decide)),
          replaceL_cons_not_prefixOf _ _ _ _ P,
          replaceL_append_left _ _ "ase_".toList _
            (noStart_of_head_not_mem _ 'b' (by decide) _ _ (by decide)),
          replaceL_head_occurrence _ _ _ 'b' "ackup_".toList (by decide),
          replaceL_no_occurrence _ _ _ hno]
      simp [List.append_assoc]
    · rw [archiveName_split]
      exact first_replace_generic _ ts hts
        (noStart_of_head_not_mem _ 'b' (by decide) _ _ (by decide))
  have hx : '.' ∉ ((ty ++ ['_']) ++ ("metadata_".toList ++ ts)) := by
    intro hm
    rcases List.mem_append.mp hm with h1 | h2
    · rcases List.mem_append.mp h1 with h3 | h4
      · fin_cases hty <;> revert h3 <;> decide
      · revert h4; decide
    · rcases List.mem_append.mp h2 with h5 | h6
      · revert h5; decide
      · exact tsChars_no_dot ts hts h6
  unfold deriveMetaName
  rw [hfirst]
  rw [show (ty ++ ['_']) ++ ("metadata_".toList ++ (ts ++ ".tar.gz".toList))
      = ((ty ++ ['_']) ++ ("metadata_".toList ++ ts)) ++ ".tar.gz".toList from by
        simp [List.append_assoc]]
  rw [second_replace_generic _ hx]
  simp [List.append_assoc]

lemma ne_of_last_char (x y u v : List Char) (c d : Char) (cu dv : List Char)
    (hu : u.reverse = c :: cu) (hv : v.reverse = d :: dv) (hcd : c ≠ d) :
    x ++ u ≠ y ++ v := by
  intro h
  have hrev := congrArg List.reverse h
  rw [List.reverse_append, List.reverse_append, hu, hv, List.cons_append,
    List.cons_append] at hrev
  exact hcd (List.cons.inj hrev).1

lemma not_tarGz_suffixOf_json (x : List Char) :
    ".tar.gz".toList.isSuffixOf (x ++ ".json".toList) = false := by
  refine Bool.eq_false_iff.mpr ?_
  intro htrue
  have hsu : ".tar.gz".toList <:+ (x ++ ".json".toList) := by
    have h1 := List.isSuffixOf_iff_suffix.mp htrue
    exact h1
  rcases hsu with ⟨p, hp⟩
  exact ne_of_last_char p x ".tar.gz".toList ".json".toList 'z' 'n'
    "g.rat.".toList "osj.".toList (by decide) (by decide) (by decide) hp

lemma globArchive_false_of_json (x : List Char) :
    globArchive (x ++ ".json".toList) = false := by
  unfold globArchive
  rw [not_tarGz_suffixOf_json]
  simp

lemma cleanup_fold_count (cutoff : Int) :
    ∀ (L : List RootFile) (files : List RootFile) (c : Nat),
      (L.foldl (cleanupStep cutoff) (files, c)).2 =
        c + (L.filter (fun f => decide (f.mtime < cutoff))).length := by
  intro L
  induction L with
  | nil => intro files c; simp
  | cons f L ih =>
    intro files c
    rw [List.foldl_cons]
    by_cases hf : f.mtime < cutoff
    · have hstep : (cleanupStep cutoff (files, c) f).2 = c + 1 := by
        simp [cleanupStep, if_pos hf]
      rcases hs : cleanupStep cutoff (files, c) f with ⟨files2, c2⟩
      rw [hs] at hstep
      rw [ih]
      simp only at hstep
      rw [hstep]
      simp [List.filter_cons, hf]
      omega
    · have hstep : cleanupStep cutoff (files, c) f = (files, c) := by
        simp [cleanupStep, hf]
      rw [hstep, ih]
      simp [List.filter_cons, hf]

lemma cleanup_step_filter (cutoff : Int) (files : List RootFile) (c : Nat)
    (f : RootFile) (hf : f.mtime < cutoff) :
    (cleanupStep cutoff (files, c) f).1 =
      files.filter (fun g =>
        !(g.name == f.name) && !(g.name == deriveMetaName f.name)) := by
  simp only [cleanupStep, if_pos hf]
  by_cases hany : (files.filter (fun g => !(g.name == f.name))).any
      (fun g => g.name == deriveMetaName f.name)
  · rw [if_pos hany, List.filter_filter]
    apply List.filter_congr
    intro a _
    rw [Bool.and_comm]
  · rw [if_neg hany]
    have hall : ∀ g ∈ files.filter (fun g => !(g.name == f.name)),
        (!(g.name == deriveMetaName f.name)) = true := by
      intro g hg
      have h1 := List.any_eq_false.mp (Bool.eq_false_iff.mpr hany) g hg
      simpa using h1
    calc files.filter (fun g => !(g.name == f.name))
        = (files.filter (fun g => !(g.name == f.name))).filter
            (fun g => !(g.name == deriveMetaName f.name)) :=
          (List.filter_eq_self.mpr hall).symm
      _ = files.filter (fun g =>
            !(g.name == f.name) && !(g.name == deriveMetaName f.name)) := by
          rw [List.filter_filter]
          apply List.filter_congr
          intro a _
          rw [Bool.and_comm]

lemma cleanup_fold_files (cutoff : Int) :
    ∀ (L files : List RootFile) (c : Nat),
      (L.foldl (cleanupStep cutoff) (files, c)).1 =
        files.filter (fun g => L.all (fun f =>
          !decide (f.mtime < cutoff) ||
          (!(g.name == f.name) && !(g.name == deriveMetaName f.name)))) := by
  intro L
  induction L with
  | nil => intro files c; simp
  | cons f L ih =>
    intro files c
    rw [List.foldl_cons]
    by_cases hf : f.mtime < cutoff
    · have h2 : (cleanupStep cutoff (files, c) f).2 = c + 1 := by
        simp [cleanupStep, if_pos hf]
      have hstep : cleanupStep cutoff (files, c) f =
          (files.filter (fun g =>
            !(g.name == f.name) && !(g.name == deriveMetaName f.name)), c + 1) := by
        rcases hs : cleanupStep cutoff (files, c) f with ⟨a, b⟩
        have ha := cleanup_step_filter cutoff files c f hf
        rw [hs] at ha h2
        simp only at ha h2
        rw [ha, h2]
      rw [hstep, ih, List.filter_filter]
      apply List.filter_congr
      intro a _
      simp [List.all_cons, hf, Bool.and_comm]
    · have hstep : cleanupStep cutoff (files, c) f = (files, c) := by
        simp [cleanupStep, hf]
      rw [hstep, ih]
      apply List.filter_congr
      intro a _
      simp [List.all_cons, hf]

lemma archiveName_ne_derived (ty ts ty2 ts2 : List Char) (hty2 : ty2 ∈ archiveTypes)
    (hts2 : tsChars ts2) :
    archiveName ty ts ≠ deriveMetaName (archiveName ty2 ts2) := by
  rw [deriveMetaName_archiveName ty2 ts2 hty2 hts2]
  rw [show (ty2 ++ ['_']) ++ ("metadata_".toList ++ (ts2 ++ ".json".toList))
      = ((ty2 ++ ['_']) ++ ("metadata_".toList ++ ts2)) ++ ".json".toList from by
        simp [List.append_assoc]]
  unfold archiveName
  exact ne_of_last_char _ _ _ _ 'z' 'n' "g.rat.".toList "osj.".toList
    (by decide) (by decide) (by decide)

/-- C8: `cleanup_old_backups(keep_days)` deletes exactly those archives
under the backup root whose modification time is strictly older than
`now - keep_days` days, leaves every newer archive untouched, and returns
the number of archives removed; metadata deletions are never counted.  The
backup root is assumed to hold the program's own archives (every
glob-matching name has the `{type}_backup_{ts}.tar.gz` shape) and, being a
directory listing, no duplicate names. -/
theorem cleanup_old_backups_exact (keepDays now : Int) (root : List RootFile)
    (hshape : ∀ f ∈ root, globArchive f.name = true →
      ∃ ty ts, ty ∈ archiveTypes ∧ tsChars ts ∧ f.name = archiveName ty ts)
    (hnodup : (root.map RootFile.name).Nodup) :
    (∀ f ∈ root, globArchive f.name = true →
      (f ∈ (cleanup_old_backups keepDays now root).1 ↔
        ¬ f.mtime < now - keepDays * 86400)) ∧
    (cleanup_old_backups keepDays now root).2 =
      (root.filter (fun f => globArchive f.name &&
        decide (f.mtime < now - keepDays * 86400))).length := by
  constructor
  · intro f hf hglob
    simp only [cleanup_old_backups]
    rw [cleanup_fold_files]
    constructor
    · intro hmem hold
      have hpred := (List.mem_filter.mp hmem).2
      have hfgl : f ∈ root.filter (fun f => globArchive f.name) :=
        List.mem_filter.mpr ⟨hf, hglob⟩
      have := List.all_eq_true.mp hpred f hfgl
      simp [hold] at this
    · intro hnew
      refine List.mem_filter.mpr ⟨hf, ?_⟩
      rw [List.all_eq_true]
      intro g hg
      by_cases hgold : g.mtime < now - keepDays * 86400
      · have hgroot : g ∈ root := (List.mem_filter.mp hg).1
        have hgglob : globArchive g.name = true := (List.mem_filter.mp hg).2
        have hfneq : f.name ≠ g.name := by
          intro heq
          have hfg : f = g := List.inj_on_of_nodup_map hnodup hf hgroot heq
          exact hnew (hfg ▸ hgold)
        have hfnd : f.name ≠ deriveMetaName g.name := by
          obtain ⟨ty, ts, hty, hts, hfn⟩ := hshape f hf hglob
          obtain ⟨ty2, ts2, hty2, hts2, hgn⟩ := hshape g hgroot hgglob
          rw [hfn, hgn]
          exact archiveName_ne_derived ty ts ty2 ts2 hty2 hts2
        simp [hgold, hfneq, hfnd]
      · simp [hgold]
  · simp only [cleanup_old_backups]
    rw [cleanup_fold_count, List.filter_filter]
    rw [Nat.zero_add]
    congr 1
    apply List.filter_congr
    intro a _
    rw [Bool.and_comm]

/-- Witness for C8: with a 30-day horizon at time 9504000, the archive of
mtime 8640000 is newer than the cutoff 6912000 and survives the sweep. -/
theorem cleanup_old_backups_exact_witness :
    ({ name := archiveName "database".toList c8ts2, mtime := 8640000 } : RootFile) ∈
      (cleanup_old_backups 30 9504000 c8Root).1 := by
  have h := cleanup_old_backups_exact 30 9504000 c8Root
    (by
      intro f hf hg
      fin_cases hf
      · exact ⟨"config".toList, c8ts1, by decide, by unfold tsChars; decide, rfl⟩
      · exact ⟨"database".toList, c8ts2, by decide, by unfold tsChars; decide, rfl⟩
      · exact absurd hg (by decide))
    (by decide)
  exact (h.1 _ (by decide) (by decide)).mpr (by decide)

lemma metadataFileName_ne_typed (ts ts2 ty2 : List Char)
    (hty2 : ty2 ∈ archiveTypes) :
    metadataFileName ts ≠
      (ty2 ++ ['_']) ++ ("metadata_".toList ++ (ts2 ++ ".json".toList)) := by
  unfold metadataFileName
  rw [show "backup_metadata_".toList = 'b' :: "ackup_metadata_".toList from by decide,
      List.cons_append, List.cons_append]
  fin_cases hty2
  · rw [show ("config".toList ++ ['_']) = 'c' :: "onfig_".toList from by decide,
        List.cons_append]
    intro heq
    exact absurd (List.cons.inj heq).1 (by decide)
  · rw [show ("database".toList ++ ['_']) = 'd' :: "atabase_".toList from by decide,
        List.cons_append]
    intro heq
    exact absurd (List.cons.inj heq).1 (by decide)
  · rw [show ("monitoring".toList ++ ['_']) = 'm' :: "onitoring_".toList from by decide,
        List.cons_append]
    intro heq
    exact absurd (List.cons.inj heq).1 (by decide)

/-- C9: for every archive name the program itself creates
(`{type}_backup_{ts}.tar.gz`), the metadata filename the cleanup derives by
substituting `backup_` with `metadata_` and `.tar.gz` with `.json` is
`{type}_metadata_{ts}.json`, which never equals the metadata filename the
program writes (`backup_metadata_{ts}.json`); metadata files never match
the archive glob, so a cleanup sweep over the program's own files never
deletes a program-written metadata file. -/
theorem cleanup_derived_metadata_mismatch (ty ts : List Char)
    (hty : ty ∈ archiveTypes) (hts : tsChars ts) :
    deriveMetaName (archiveName ty ts) =
      (ty ++ ['_']) ++ ("metadata_".toList ++ (ts ++ ".json".toList)) ∧
    deriveMetaName (archiveName ty ts) ≠ metadataFileName ts ∧
    globArchive (metadataFileName ts) = false ∧
    (∀ (keepDays now : Int) (root : List RootFile) (f : RootFile),
      (∀ g ∈ root, globArchive g.name = true →
        ∃ ty2 ts2, ty2 ∈ archiveTypes ∧ tsChars ts2 ∧ g.name = archiveName ty2 ts2) →
      f ∈ root → f.name = metadataFileName ts →
      f ∈ (cleanup_old_backups keepDays now root).1) := by
  have h1 := deriveMetaName_archiveName ty ts hty hts
  have h3 : globArchive (metadataFileName ts) = false :=
    globArchive_false_of_json ("backup_metadata_".toList ++ ts)
  refine ⟨h1, ?_, h3, ?_⟩
  · rw [h1]
    exact (metadataFileName_ne_typed ts ts ty hty).symm
  · intro keepDays now root f hsh hf hfn
    simp only [cleanup_old_backups]
    rw [cleanup_fold_files]
    refine List.mem_filter.mpr ⟨hf, ?_⟩
    rw [List.all_eq_true]
    intro g hg
    by_cases hgold : g.mtime < now - keepDays * 86400
    · have hgroot := (List.mem_filter.mp hg).1
      have hgglob := (List.mem_filter.mp hg).2
      obtain ⟨ty2, ts2, hty2, hts2, hgn⟩ := hsh g hgroot hgglob
      have hne1 : f.name ≠ g.name := by
        intro heq
        rw [← heq, hfn] at hgglob
        exact Bool.false_ne_true (h3 ▸ hgglob)
      have hne2 : f.name ≠ deriveMetaName g.name := by
        rw [hfn, hgn, deriveMetaName_archiveName ty2 ts2 hty2 hts2]
        exact metadataFileName_ne_typed ts ts2 ty2 hty2
      simp [hgold, hne1, hne2]
    · simp [hgold]

/-- Witness for C9 at `config_backup_20240101_000000.tar.gz`. -/
theorem cleanup_derived_metadata_mismatch_witness :
    deriveMetaName (archiveName "config".toList c8ts1) =
      ("config".toList ++ ['_']) ++
        ("metadata_".toList ++ (c8ts1 ++ ".json".toList)) := by
  exact (cleanup_derived_metadata_mismatch "config".toList c8ts1 (by decide)
    (by unfold tsChars; decide)).1


lemma dictSet_append (m : Dict) (k v : String) (h : ∀ e ∈ m, e.1 ≠ k) :
    dictSet m k v = m ++ [(k, v)] := by
  have hany : m.any (fun e => e.1 == k) = false := by
    rw [List.any_eq_false]
    intro e he
    simp [h e he]
  simp only [dictSet, hany]
  simp

lemma sameOutside_trans {b : FPath} {fs0 fs1 fs2 : FS}
    (h1 : sameOutside b fs0 fs1) (h2 : sameOutside b fs1 fs2) :
    sameOutside b fs0 fs2 := by
  intro q hq
  exact ⟨(h2 q hq).1.trans (h1 q hq).1, (h2 q hq).2.trans (h1 q hq).2⟩

lemma sameOutside_mkdir {b : FPath} {fs0 fs : FS} (h : sameOutside b fs0 fs)
    (t : FPath) (ht : b <+: t) : sameOutside b fs0 (fs.mkdir t) := by
  intro q hq
  have hne : q ≠ t := fun he => hq (he ▸ ht)
  have h1 := h q hq
  constructor
  · exact h1.1
  · rw [FS.mkdir_dirs, if_neg hne]
    exact h1.2

lemma sameOutside_copytree {b : FPath} {fs0 fs : FS} (h : sameOutside b fs0 fs)
    (src dst : FPath) (hd : b <+: dst) :
    sameOutside b fs0 (fs.copytree src dst) := by
  intro q hq
  have hnd : dst.isPrefixOf q = false := by
    refine Bool.eq_false_iff.mpr ?_
    intro htrue
    exact hq (hd.trans ( List.isPrefixOf_iff_prefix.mp htrue))
  have h1 := h q hq
  constructor
  · rw [FS.copytree_files, hnd]
    simpa using h1.1
  · rw [FS.copytree_dirs, hnd]
    simpa using h1.2

lemma sameOutside_copyFileToDir {b : FPath} {fs0 fs : FS}
    (h : sameOutside b fs0 fs) (src d : FPath) (hd : b <+: d) :
    sameOutside b fs0 (fs.copyFileToDir src d) := by
  intro q hq
  have hne : q ≠ d ++ [(src.getLast?).getD ""] := by
    intro he
    exact hq (he ▸ hd.trans (List.prefix_append d _))
  have h1 := h q hq
  constructor
  · rw [FS.copyFileToDir_files, if_neg hne]
    exact h1.1
  · exact h1.2

lemma prefixOf_false_iff (a q : FPath) : a.isPrefixOf q = false ↔ ¬ a <+: q := by
  constructor
  · intro h hpre
    rw [( List.isPrefixOf_iff_prefix.mpr hpre : a.isPrefixOf q = true)] at h
    exact absurd h (by simp)
  · intro h
    refine Bool.eq_false_iff.mpr ?_
    intro htrue
    exact h ( List.isPrefixOf_iff_prefix.mp htrue)

lemma backupPaths_sameOutside (env : Env) (bdir sbd : FPath) (s : String)
    (fs0 : FS) (hb : bdir <+: sbd) :
    ∀ (ps : List FPath) (fs : FS) (res : Dict),
      sameOutside bdir fs0 fs →
      sameOutside bdir fs0 (backupPaths env s sbd fs res ps).1 := by
  intro ps
  induction ps with
  | nil => intro fs res h; exact h
  | cons p ps ih =>
    intro fs res h
    simp only [backupPaths]
    split
    · split
      · split
        · exact ih _ _ (sameOutside_copytree h _ _ (hb.trans (List.prefix_append _ _)))
        · exact ih _ _ h
      · split
        · exact ih _ _ (sameOutside_copyFileToDir h _ _ hb)
        · exact ih _ _ h
    · exact ih _ _ h

lemma backupServices_sameOutside (env : Env) (bdir cbd : FPath) (fs0 : FS)
    (hb : bdir <+: cbd) :
    ∀ (cfg : List (String × List FPath)) (fs : FS) (res : Dict),
      sameOutside bdir fs0 fs →
      sameOutside bdir fs0 (backupServices env cbd fs res cfg).1 := by
  intro cfg
  induction cfg with
  | nil => intro fs res h; exact h
  | cons e rest ih =>
    intro fs res h
    rcases e with ⟨s, ps⟩
    simp only [backupServices]
    refine ih _ _ ?_
    refine backupPaths_sameOutside env bdir (cbd ++ [s]) s fs0
      (hb.trans (List.prefix_append _ _)) ps _ _ ?_
    exact sameOutside_mkdir h _ (hb.trans (List.prefix_append _ _))

lemma backupServices_append (env : Env) (cbd : FPath) :
    ∀ (l1 l2 : List (String × List FPath)) (fs : FS) (res : Dict),
      backupServices env cbd fs res (l1 ++ l2) =
        backupServices env cbd (backupServices env cbd fs res l1).1
          (backupServices env cbd fs res l1).2 l2 := by
  intro l1
  induction l1 with
  | nil => intro l2 fs res; rfl
  | cons e rest ih =>
    intro l2 fs res
    rcases e with ⟨s, ps⟩
    simp only [List.cons_append, backupServices]
    exact ih l2 _ _

lemma untouched_mkdir {u : FPath} {fs0 fs : FS} (h : untouchedUnder u fs0 fs)
    (t : FPath) (ht : ∀ q, u <+: q → q ≠ t) :
    untouchedUnder u fs0 (fs.mkdir t) := by
  intro q hq
  have h1 := h q hq
  refine ⟨h1.1, ?_⟩
  rw [FS.mkdir_dirs, if_neg (ht q hq)]
  exact h1.2

lemma untouched_copytree {u : FPath} {fs0 fs : FS} (h : untouchedUnder u fs0 fs)
    (src dst : FPath) (hd : ∀ q, u <+: q → ¬ dst <+: q) :
    untouchedUnder u fs0 (fs.copytree src dst) := by
  intro q hq
  have hnd : dst.isPrefixOf q = false := (prefixOf_false_iff dst q).mpr (hd q hq)
  have h1 := h q hq
  constructor
  · rw [FS.copytree_files, hnd]
    simpa using h1.1
  · rw [FS.copytree_dirs, hnd]
    simpa using h1.2

lemma untouched_copyFileToDir {u : FPath} {fs0 fs : FS}
    (h : untouchedUnder u fs0 fs) (src d : FPath)
    (hne : ∀ q, u <+: q → q ≠ d ++ [(src.getLast?).getD ""]) :
    untouchedUnder u fs0 (fs.copyFileToDir src d) := by
  intro q hq
  have h1 := h q hq
  refine ⟨?_, h1.2⟩
  rw [FS.copyFileToDir_files, if_neg (hne q hq)]
  exact h1.1

lemma backupPaths_untouched (env : Env) (sbd : FPath) (s : String) (u : FPath)
    (fs0 : FS) :
    ∀ (ps : List FPath) (fs : FS) (res : Dict),
      untouchedUnder u fs0 fs →
      (∀ p ∈ ps, ∀ q, u <+: q → ¬ (sbd ++ [baseName p]) <+: q) →
      untouchedUnder u fs0 (backupPaths env s sbd fs res ps).1 := by
  intro ps
  induction ps with
  | nil => intro fs res h _; exact h
  | cons p ps ih =>
    intro fs res h hp
    have hp0 : ∀ q, u <+: q → ¬ (sbd ++ [baseName p]) <+: q :=
      hp p (by simp)
    have hps : ∀ p' ∈ ps, ∀ q, u <+: q → ¬ (sbd ++ [baseName p']) <+: q :=
      fun p' hm => hp p' (by simp [hm])
    simp only [backupPaths]
    split
    · split
      · split
        · refine ih _ _ (untouched_copytree h _ _ hp0) hps
        · exact ih _ _ h hps
      · split
        · refine ih _ _ (untouched_copyFileToDir h _ _ ?_) hps
          intro q hq heq
          exact hp0 q hq (by rw [heq]; exact List.prefix_rfl)
        · exact ih _ _ h hps
    · exact ih _ _ h hps

lemma backupServices_untouched (env : Env) (cbd u : FPath) (fs0 : FS) :
    ∀ (cfg : List (String × List FPath)) (fs : FS) (res : Dict),
      untouchedUnder u fs0 fs →
      (∀ s ps, (s, ps) ∈ cfg →
        (∀ q, u <+: q → q ≠ cbd ++ [s]) ∧
        (∀ p ∈ ps, ∀ q, u <+: q → ¬ ((cbd ++ [s]) ++ [baseName p]) <+: q)) →
      untouchedUnder u fs0 (backupServices env cbd fs res cfg).1 := by
  intro cfg
  induction cfg with
  | nil => intro fs res h _; exact h
  | cons e rest ih =>
    intro fs res h hp
    rcases e with ⟨s, ps⟩
    have he := hp s ps (by simp)
    have hrest : ∀ s' ps', (s', ps') ∈ rest →
        (∀ q, u <+: q → q ≠ cbd ++ [s']) ∧
        (∀ p ∈ ps', ∀ q, u <+: q → ¬ ((cbd ++ [s']) ++ [baseName p]) <+: q) :=
      fun s' ps' hm => hp s' ps' (by simp [hm])
    simp only [backupServices]
    refine ih _ _ ?_ hrest
    exact backupPaths_untouched env (cbd ++ [s]) s u fs0 ps _ _
      (untouched_mkdir h _ he.1) he.2

lemma backupPaths_spec (env : Env) (bdir cbd : FPath) (s : String) (fs0 : FS)
    (hb : bdir <+: cbd) :
    ∀ (ps : List FPath) (fs : FS) (res : Dict),
      sameOutside bdir fs0 fs →
      (∀ p ∈ ps, ¬ bdir <+: p) →
      (∀ p ∈ ps, ∀ e ∈ res, e.1 ≠ pairKey s p) →
      ((ps.map (pairKey s)).Nodup) →
      (backupPaths env s (cbd ++ [s]) fs res ps).2 =
        res ++ ps.map (fun p => (pairKey s p, pairOutcome env cbd fs0 s p)) := by
  intro ps
  induction ps with
  | nil => intro fs res _ _ _ _; simp [backupPaths]
  | cons p ps ih =>
    intro fs res hout hbp hfresh hnd
    have hbp0 : ¬ bdir <+: p := hbp p (by simp)
    have hbp' : ∀ p' ∈ ps, ¬ bdir <+: p' := fun p' hm => hbp p' (by simp [hm])
    have hsame := hout p hbp0
    have hex : fs.pathExists p = fs0.pathExists p := by
      unfold FS.pathExists
      rw [hsame.1, hsame.2]
    have hdr : fs.dirs p = fs0.dirs p := hsame.2
    have hfr : ∀ e ∈ res, e.1 ≠ s ++ "_" ++ baseName p := by
      intro e he
      have := hfresh p (by simp) e he
      simpa [pairKey] using this
    have hknotin : pairKey s p ∉ ps.map (pairKey s) := (List.nodup_cons.mp hnd).1
    have hnd' : (ps.map (pairKey s)).Nodup := (List.nodup_cons.mp hnd).2
    have hfresh' : ∀ (v : String), ∀ p' ∈ ps,
        ∀ e ∈ res ++ [(s ++ "_" ++ baseName p, v)], e.1 ≠ pairKey s p' := by
      intro v p' hp' e he
      rcases List.mem_append.mp he with h1 | h2
      · exact hfresh p' (by simp [hp']) e h1
      · have he2 : e = (s ++ "_" ++ baseName p, v) := by simpa using h2
        rw [he2]
        intro hkey
        refine hknotin ?_
        have hkk : pairKey s p = pairKey s p' := hkey
        rw [hkk]
        exact List.mem_map_of_mem (pairKey s) hp'
    have hbs : bdir <+: cbd ++ [s] := hb.trans (List.prefix_append _ _)
    simp only [backupPaths]
    rw [hex, hdr]
    by_cases h1 : fs0.pathExists p = true
    · by_cases h2 : fs0.dirs p = true
      · by_cases h3 : env.copyOk p ((cbd ++ [s]) ++ [baseName p]) = true
        · rw [if_pos h1, if_pos h2, if_pos h3, dictSet_append _ _ _ hfr,
            ih _ _ (sameOutside_copytree hout _ _
              (hbs.trans (List.prefix_append _ _))) hbp' (hfresh' _) hnd']
          have h3n : env.copyOk p (cbd ++ [s, baseName p]) = true := by
            simpa using h3
          have hval : pairOutcome env cbd fs0 s p = "success" := by
            simp [pairOutcome, h1, h2, h3n]
          simp [pairKey, hval, List.append_assoc]
        · rw [if_pos h1, if_pos h2, if_neg h3, dictSet_append _ _ _ hfr,
            ih _ _ hout hbp' (hfresh' _) hnd']
          have h3n : ¬ env.copyOk p (cbd ++ [s, baseName p]) = true := by
            simpa using h3
          have hval : pairOutcome env cbd fs0 s p =
              "error: " ++ env.copyErr p ((cbd ++ [s]) ++ [baseName p]) := by
            simp [pairOutcome, h1, h2, h3n]
          simp [pairKey, hval, List.append_assoc]
      · by_cases h3 : env.copyOk p (cbd ++ [s]) = true
        · rw [if_pos h1, if_neg h2, if_pos h3, dictSet_append _ _ _ hfr,
            ih _ _ (sameOutside_copyFileToDir hout _ _ hbs) hbp' (hfresh' _) hnd']
          have hval : pairOutcome env cbd fs0 s p = "success" := by
            simp [pairOutcome, h1, h2, h3]
          simp [pairKey, hval, List.append_assoc]
        · rw [if_pos h1, if_neg h2, if_neg h3, dictSet_append _ _ _ hfr,
            ih _ _ hout hbp' (hfresh' _) hnd']
          have hval : pairOutcome env cbd fs0 s p =
              "error: " ++ env.copyErr p (cbd ++ [s]) := by
            simp [pairOutcome, h1, h2, h3]
          simp [pairKey, hval, List.append_assoc]
    · rw [if_neg h1, dictSet_append _ _ _ hfr, ih _ _ hout hbp' (hfresh' _) hnd']
      have hval : pairOutcome env cbd fs0 s p = "path_not_found" := by
        simp [pairOutcome, h1]
      simp [pairKey, hval, List.append_assoc]

lemma backupServices_spec (env : Env) (bdir cbd : FPath) (fs0 : FS)
    (hb : bdir <+: cbd) :
    ∀ (cfg : List (String × List FPath)) (fs : FS) (res : Dict),
      sameOutside bdir fs0 fs →
      (∀ s ps p, (s, ps) ∈ cfg → p ∈ ps → ¬ bdir <+: p) →
      (allKeys cfg).Nodup →
      (∀ k ∈ allKeys cfg, ∀ e ∈ res, e.1 ≠ k) →
      (backupServices env cbd fs res cfg).2 =
        res ++ expectedOutcomes env cbd fs0 cfg := by
  intro cfg
  induction cfg with
  | nil => intro fs res _ _ _ _; simp [backupServices, expectedOutcomes]
  | cons e rest ih =>
    intro fs res hout hbp hnd hfresh
    rcases e with ⟨s, ps⟩
    have hkeys : allKeys ((s, ps) :: rest) = ps.map (pairKey s) ++ allKeys rest := by
      simp [allKeys]
    rw [hkeys] at hnd hfresh
    have hnd3 := List.nodup_append.mp hnd
    have hfs1 : sameOutside bdir fs0 (fs.mkdir (cbd ++ [s])) :=
      sameOutside_mkdir hout _ (hb.trans (List.prefix_append _ _))
    have hps := backupPaths_spec env bdir cbd s fs0 hb ps (fs.mkdir (cbd ++ [s]))
      res hfs1 (fun p hp => hbp s ps p (by simp) hp)
      (fun p hp e he => hfresh (pairKey s p)
        (List.mem_append_left _ (List.mem_map_of_mem _ hp)) e he)
      hnd3.1
    have hfs2 : sameOutside bdir fs0
        (backupPaths env s (cbd ++ [s]) (fs.mkdir (cbd ++ [s])) res ps).1 :=
      backupPaths_sameOutside env bdir (cbd ++ [s]) s fs0
        (hb.trans (List.prefix_append _ _)) ps _ _ hfs1
    have hfreshrest : ∀ k ∈ allKeys rest,
        ∀ e ∈ (backupPaths env s (cbd ++ [s]) (fs.mkdir (cbd ++ [s])) res ps).2,
          e.1 ≠ k := by
      intro k hk e he
      rw [hps] at he
      rcases List.mem_append.mp he with h1 | h2
      · exact hfresh k (List.mem_append_right _ hk) e h1
      · rcases List.mem_map.mp h2 with ⟨p, hp, hpe⟩
        rw [← hpe]
        intro hke
        exact hnd3.2.2 (hke ▸ List.mem_map_of_mem _ hp) hk
    simp only [backupServices]
    rw [ih _ _ hfs2 (fun s' ps' p hm hp => hbp s' ps' p (by simp [hm]) hp)
      hnd3.2.1 hfreshrest, hps]
    simp [expectedOutcomes, List.append_assoc]

lemma untouched_trans {u : FPath} {fs0 fs1 fs2 : FS}
    (h1 : untouchedUnder u fs0 fs1) (h2 : untouchedUnder u fs1 fs2) :
    untouchedUnder u fs0 fs2 := by
  intro q hq
  exact ⟨(h2 q hq).1.trans (h1 q hq).1, (h2 q hq).2.trans (h1 q hq).2⟩

lemma eq_length_prefix_ne {t u q : FPath} (hne : t ≠ u)
    (hlen : t.length = u.length) (hu : u <+: q) : ¬ t <+: q := by
  intro ht
  rcases prefixComparable ht hu with h | h
  · exact hne (h.eq_of_length hlen)
  · exact hne ((h.eq_of_length hlen.symm).symm)

lemma target_components {cbd : FPath} {s s' b b' : String}
    (h : (cbd ++ [s']) ++ [b'] = (cbd ++ [s]) ++ [b]) : s' = s ∧ b' = b := by
  rw [List.append_assoc, List.append_assoc] at h
  have h2 := List.append_cancel_left h
  simpa using h2

lemma backupPaths_append (env : Env) (s : String) (sbd : FPath) :
    ∀ (q1 q2 : List FPath) (fs : FS) (res : Dict),
      backupPaths env s sbd fs res (q1 ++ q2) =
        backupPaths env s sbd (backupPaths env s sbd fs res q1).1
          (backupPaths env s sbd fs res q1).2 q2 := by
  intro q1
  induction q1 with
  | nil => intro q2 fs res; rfl
  | cons p q1 ih =>
    intro q2 fs res
    simp only [List.cons_append, backupPaths]
    split
    · split
      · split
        · exact ih q2 _ _
        · exact ih q2 _ _
      · split
        · exact ih q2 _ _
        · exact ih q2 _ _
    · exact ih q2 _ _

lemma nodupKeys_eq {cfg : List (String × List FPath)} {s : String}
    {ps ps' : List FPath} (hnd : (cfg.map Prod.fst).Nodup)
    (h1 : (s, ps) ∈ cfg) (h2 : (s, ps') ∈ cfg) : ps = ps' := by
  have h3 := List.inj_on_of_nodup_map hnd h1 h2 rfl
  exact congrArg Prod.snd h3

lemma target_not_prefix_of_key_ne {cbd : FPath} {s s' : String} {p p' : FPath}
    (hkey : pairKey s' p' ≠ pairKey s p) :
    ∀ q, ((cbd ++ [s]) ++ [baseName p]) <+: q →
      ¬ ((cbd ++ [s']) ++ [baseName p']) <+: q := by
  intro q hu
  refine eq_length_prefix_ne ?_ (by simp) hu
  intro he
  obtain ⟨hs, hb⟩ := target_components he
  exact hkey (by rw [pairKey, pairKey, hs, hb])

lemma mkdir_ne_of_len {cbd u : FPath} (hlen : cbd.length < u.length) :
    ∀ q, u <+: q → q ≠ cbd := by
  intro q hq he
  have := hq.length_le
  rw [he] at this
  omega

lemma nodup_sep {α : Type} {L X Y : List α} {a : α} (h : L.Nodup)
    (he : L = X ++ a :: Y) : (∀ b ∈ X, b ≠ a) ∧ ∀ b ∈ Y, b ≠ a := by
  subst he
  have h1 := List.nodup_append.mp h
  constructor
  · intro b hb heq
    exact h1.2.2 hb (by simp [heq])
  · intro b hb heq
    have h2 := List.nodup_cons.mp h1.2.1
    exact h2.1 (heq ▸ hb)

lemma allKeys_append (a b : List (String × List FPath)) :
    allKeys (a ++ b) = allKeys a ++ allKeys b := by
  simp [allKeys]

lemma backup_untouched_of_absent (env : Env) (bdir cbd : FPath)
    (hb : bdir <+: cbd) (cfg : List (String × List FPath)) (s : String)
    (ps : List FPath) (p : FPath) (hm : (s, ps) ∈ cfg) (hp : p ∈ ps)
    (hnd : (allKeys cfg).Nodup)
    (hdisj : ∀ s' ps' p', (s', ps') ∈ cfg → p' ∈ ps' → ¬ bdir <+: p')
    (fs0 fs : FS) (res : Dict) (hout : sameOutside bdir fs0 fs)
    (hU : untouchedUnder ((cbd ++ [s]) ++ [baseName p]) fs0 fs)
    (habs : fs0.pathExists p = false) :
    untouchedUnder ((cbd ++ [s]) ++ [baseName p]) fs0
      ((backupServices env cbd fs res cfg).1) := by
  have hbp0 : ¬ bdir <+: p := hdisj s ps p hm hp
  obtain ⟨l1, l2, hcfg⟩ := List.append_of_mem hm
  subst hcfg
  obtain ⟨q1, q2, hpsplit⟩ := List.append_of_mem hp
  have hKsep := nodup_sep hnd
    (show allKeys (l1 ++ (s, ps) :: l2) =
      (allKeys l1 ++ q1.map (pairKey s)) ++
        pairKey s p :: (q2.map (pairKey s) ++ allKeys l2) from by
      rw [hpsplit]
      simp [allKeys, List.append_assoc])
  have hL1 : ∀ s' ps', (s', ps') ∈ l1 →
      (∀ q, ((cbd ++ [s]) ++ [baseName p]) <+: q → q ≠ cbd ++ [s']) ∧
      (∀ p' ∈ ps', ∀ q, ((cbd ++ [s]) ++ [baseName p]) <+: q →
        ¬ ((cbd ++ [s']) ++ [baseName p']) <+: q) := by
    intro s' ps' hm'
    refine ⟨mkdir_ne_of_len (by simp), ?_⟩
    intro p' hp'
    refine target_not_prefix_of_key_ne ?_
    refine hKsep.1 (pairKey s' p') (List.mem_append_left _ ?_)
    exact List.mem_flatMap.mpr ⟨(s', ps'), hm', List.mem_map_of_mem _ hp'⟩
  have hL2 : ∀ s' ps', (s', ps') ∈ l2 →
      (∀ q, ((cbd ++ [s]) ++ [baseName p]) <+: q → q ≠ cbd ++ [s']) ∧
      (∀ p' ∈ ps', ∀ q, ((cbd ++ [s]) ++ [baseName p]) <+: q →
        ¬ ((cbd ++ [s']) ++ [baseName p']) <+: q) := by
    intro s' ps' hm'
    refine ⟨mkdir_ne_of_len (by simp), ?_⟩
    intro p' hp'
    refine target_not_prefix_of_key_ne ?_
    refine hKsep.2 (pairKey s' p') (List.mem_append_right _ ?_)
    exact List.mem_flatMap.mpr ⟨(s', ps'), hm', List.mem_map_of_mem _ hp'⟩
  have hq1 : ∀ p' ∈ q1, ∀ q, ((cbd ++ [s]) ++ [baseName p]) <+: q →
      ¬ ((cbd ++ [s]) ++ [baseName p']) <+: q := by
    intro p' hp'
    refine target_not_prefix_of_key_ne ?_
    exact hKsep.1 (pairKey s p') (List.mem_append_right _ (List.mem_map_of_mem _ hp'))
  have hq2 : ∀ p' ∈ q2, ∀ q, ((cbd ++ [s]) ++ [baseName p]) <+: q →
      ¬ ((cbd ++ [s]) ++ [baseName p']) <+: q := by
    intro p' hp'
    refine target_not_prefix_of_key_ne ?_
    exact hKsep.2 (pairKey s p') (List.mem_append_left _ (List.mem_map_of_mem _ hp'))
  have S1 := backupServices_sameOutside env bdir cbd fs0 hb l1 fs res hout
  have S2 := sameOutside_mkdir S1 (cbd ++ [s]) (hb.trans (List.prefix_append _ _))
  have S3 := backupPaths_sameOutside env bdir (cbd ++ [s]) s fs0
    (hb.trans (List.prefix_append _ _)) q1
    ((backupServices env cbd fs res l1).1.mkdir (cbd ++ [s]))
    (backupServices env cbd fs res l1).2 S2
  have hexec : (backupPaths env s (cbd ++ [s])
      ((backupServices env cbd fs res l1).1.mkdir (cbd ++ [s]))
      (backupServices env cbd fs res l1).2 q1).1.pathExists p = false := by
    have h1 := S3 p hbp0
    unfold FS.pathExists
    rw [h1.1, h1.2]
    exact habs
  have hskip : ∀ (fs' : FS) (res' : Dict), fs'.pathExists p = false →
      backupPaths env s (cbd ++ [s]) fs' res' (p :: q2) =
        backupPaths env s (cbd ++ [s]) fs'
          (dictSet res' (s ++ "_" ++ baseName p) "path_not_found") q2 := by
    intro fs' res' hex
    simp only [backupPaths, hex]
    simp
  rw [backupServices_append]
  simp only [backupServices]
  rw [hpsplit, backupPaths_append, hskip _ _ hexec]
  have U1 := backupServices_untouched env cbd ((cbd ++ [s]) ++ [baseName p]) fs0
    l1 fs res hU (fun s' ps' hm' => hL1 s' ps' hm')
  have U2 := untouched_mkdir U1 (cbd ++ [s]) (mkdir_ne_of_len (by simp))
  have U3 := backupPaths_untouched env (cbd ++ [s]) s
    ((cbd ++ [s]) ++ [baseName p]) fs0 q1
    ((backupServices env cbd fs res l1).1.mkdir (cbd ++ [s]))
    (backupServices env cbd fs res l1).2 U2 hq1
  have U5 := backupPaths_untouched env (cbd ++ [s]) s
    ((cbd ++ [s]) ++ [baseName p]) fs0 q2
    (backupPaths env s (cbd ++ [s])
      ((backupServices env cbd fs res l1).1.mkdir (cbd ++ [s]))
      (backupServices env cbd fs res l1).2 q1).1
    (dictSet (backupPaths env s (cbd ++ [s])
      ((backupServices env cbd fs res l1).1.mkdir (cbd ++ [s]))
      (backupServices env cbd fs res l1).2 q1).2
      (s ++ "_" ++ baseName p) "path_not_found")
    U3 hq2
  exact backupServices_untouched env cbd ((cbd ++ [s]) ++ [baseName p]) fs0
    l2 _ _ U5 (fun s' ps' hm' => hL2 s' ps' hm')

/-- C5: during a configuration backup, every configured `(service, path)`
pair is processed and receives exactly its own outcome under key
`service_basename` — `path_not_found` when the path is absent, `error: ...`
when the copy raises, `success` otherwise — one pair's failure never
affecting the others; and a pair whose path is absent contributes nothing
to the resulting archive (given a staging area initially empty at its
slot).  `hdisj` states that the configured paths do not live inside the
backup root. -/
theorem backup_configurations_isolation (env : Env) (bdir : FPath)
    (ts : String) (w : World)
    (hdisj : ∀ s ps p, (s, ps) ∈ config_paths → p ∈ ps → ¬ bdir <+: p) :
    (backup_configurations env config_paths bdir ts w).1 =
      expectedOutcomes env (bdir ++ ["config_" ++ ts]) w.fs config_paths ∧
    (∀ s ps p, (s, ps) ∈ config_paths → p ∈ ps →
      w.fs.pathExists p = false →
      (∀ q, ((bdir ++ ["config_" ++ ts]) ++ [s]) ++ [baseName p] <+: q →
        w.fs.files q = none ∧ w.fs.dirs q = false) →
      ∀ ar, (backup_configurations env config_paths bdir ts w).2.archives
          (bdir ++ ["config_backup_" ++ ts ++ ".tar.gz"]) = some ar →
        ∀ rest, ar.afiles (("config_" ++ ts) :: s :: baseName p :: rest) = none ∧
          ar.adirs (("config_" ++ ts) :: s :: baseName p :: rest) = false) := by
  have hrefl : sameOutside bdir w.fs w.fs := fun q _ => ⟨rfl, rfl⟩
  have hcbd : bdir <+: bdir ++ ["config_" ++ ts] := List.prefix_append _ _
  constructor
  · simp only [backup_configurations]
    have h := backupServices_spec env bdir (bdir ++ ["config_" ++ ts]) w.fs hcbd
      config_paths (w.fs.mkdir (bdir ++ ["config_" ++ ts])) []
      (sameOutside_mkdir hrefl _ hcbd) hdisj (by decide)
      (by intro k _ e he; simp at he)
    simpa using h
  · intro s ps p hm hp habs hfr ar har rest
    have hreflU : untouchedUnder
        (((bdir ++ ["config_" ++ ts]) ++ [s]) ++ [baseName p]) w.fs w.fs :=
      fun q _ => ⟨rfl, rfl⟩
    have hmk : untouchedUnder
        (((bdir ++ ["config_" ++ ts]) ++ [s]) ++ [baseName p]) w.fs
        (w.fs.mkdir (bdir ++ ["config_" ++ ts])) :=
      untouched_mkdir hreflU _ (mkdir_ne_of_len (by simp))
    have hUfinal := backup_untouched_of_absent env bdir
      (bdir ++ ["config_" ++ ts]) hcbd config_paths s ps p hm hp (by decide)
      hdisj w.fs (w.fs.mkdir (bdir ++ ["config_" ++ ts])) []
      (sameOutside_mkdir hrefl _ hcbd) hmk habs
    simp only [backup_configurations] at har
    rw [if_pos trivial] at har
    have har2 := (Option.some.inj har).symm
    rw [har2, tarAdd_afiles, tarAdd_adirs, if_pos rfl]
    have hq : (((bdir ++ ["config_" ++ ts]) ++ [s]) ++ [baseName p]) <+:
        (bdir ++ ["config_" ++ ts]) ++ (s :: baseName p :: rest) :=
      ⟨rest, by simp [List.append_assoc]⟩
    have hv := hUfinal _ hq
    have hw := hfr _ hq
    refine ⟨?_, ?_⟩
    · rw [hv.1, hw.1]
    · rw [hv.2, hw.2]
      simp

lemma backupPaths_dirs_mono (env : Env) (s : String) (sbd : FPath) (t : FPath) :
    ∀ (ps : List FPath) (fs : FS) (res : Dict), fs.dirs t = true →
      (backupPaths env s sbd fs res ps).1.dirs t = true := by
  intro ps
  induction ps with
  | nil => intro fs res h; exact h
  | cons p ps ih =>
    intro fs res h
    simp only [backupPaths]
    split
    · split
      · split
        · refine ih _ _ ?_
          rw [FS.copytree_dirs, h]
          simp
        · exact ih _ _ h
      · split
        · exact ih _ _ (by rw [show (fs.copyFileToDir p sbd).dirs = fs.dirs from rfl]; exact h)
        · exact ih _ _ h
    · exact ih _ _ h

lemma backupServices_dirs_mono (env : Env) (cbd : FPath) (t : FPath) :
    ∀ (cfg : List (String × List FPath)) (fs : FS) (res : Dict),
      fs.dirs t = true →
      (backupServices env cbd fs res cfg).1.dirs t = true := by
  intro cfg
  induction cfg with
  | nil => intro fs res h; exact h
  | cons e rest ih =>
    intro fs res h
    rcases e with ⟨s, ps⟩
    simp only [backupServices]
    refine ih _ _ ?_
    refine backupPaths_dirs_mono env s (cbd ++ [s]) t ps _ _ ?_
    rw [FS.mkdir_dirs]
    split
    · rfl
    · exact h

lemma lookupPaths_eq {cfg : List (String × List FPath)} {s : String}
    {ps : List FPath} (hnd : (cfg.map Prod.fst).Nodup) (hm : (s, ps) ∈ cfg) :
    lookupPaths cfg s = ps := by
  unfold lookupPaths
  rcases hf : cfg.find? (fun e => e.1 == s) with _ | e
  · have := List.find?_eq_none.mp hf (s, ps) hm
    simp at this
  · have hmem := List.mem_of_find?_eq_some hf
    have hpred := List.find?_some hf
    simp only [beq_iff_eq] at hpred
    have hm2 : (s, e.2) ∈ cfg := by
      rw [← hpred]
      exact hmem
    rw [hf]
    exact (nodupKeys_eq hnd hm hm2).symm


lemma backup_single_dir_facts (env : Env) (bdir : FPath) (ts s : String)
    (p : FPath) (f c : String) (w : World)
    (hmem : (s, [p]) ∈ config_paths)
    (hdir : w.fs.dirs p = true)
    (hfile : w.fs.files (p ++ [f]) = some c)
    (hb1 : ¬ bdir <+: p) (hb2 : ¬ p <+: bdir)
    (henv : ∀ a b, env.copyOk a b = true) :
    (configBackupFS env bdir ts w).files
      ((((bdir ++ ["config_" ++ ts]) ++ [s]) ++ [baseName p]) ++ [f]) = some c ∧
    (configBackupFS env bdir ts w).dirs
      (((bdir ++ ["config_" ++ ts]) ++ [s]) ++ [baseName p]) = true ∧
    (configBackupFS env bdir ts w).dirs ((bdir ++ ["config_" ++ ts]) ++ [s]) = true ∧
    sameOutside bdir w.fs (configBackupFS env bdir ts w) := by
  have hrefl : sameOutside bdir w.fs w.fs := fun q _ => ⟨rfl, rfl⟩
  have hcbd : bdir <+: bdir ++ ["config_" ++ ts] := List.prefix_append _ _
  have hbs : bdir <+: (bdir ++ ["config_" ++ ts]) ++ [s] :=
    hcbd.trans (List.prefix_append _ _)
  have hbu : bdir <+: ((bdir ++ ["config_" ++ ts]) ++ [s]) ++ [baseName p] :=
    hbs.trans (List.prefix_append _ _)
  have hbpf : ¬ bdir <+: p ++ [f] := by
    intro h
    rcases prefixComparable h (List.prefix_append p [f]) with h1 | h1
    · exact hb1 h1
    · exact hb2 h1
  obtain ⟨l1, l2, hcfg⟩ := List.append_of_mem hmem
  have hndall : (allKeys (l1 ++ (s, [p]) :: l2)).Nodup := by
    rw [← hcfg]; decide
  unfold configBackupFS
  rw [hcfg, backupServices_append]
  simp only [backupServices]
  have SA := backupServices_sameOutside env bdir (bdir ++ ["config_" ++ ts]) w.fs
    hcbd l1 (w.fs.mkdir (bdir ++ ["config_" ++ ts])) []
    (sameOutside_mkdir hrefl _ hcbd)
  have SB := sameOutside_mkdir SA ((bdir ++ ["config_" ++ ts]) ++ [s]) hbs
  have hdr2 : ((backupServices env (bdir ++ ["config_" ++ ts])
      (w.fs.mkdir (bdir ++ ["config_" ++ ts])) [] l1).1.mkdir
        ((bdir ++ ["config_" ++ ts]) ++ [s])).dirs p = true := by
    rw [(SB p hb1).2]
    exact hdir
  have hex : ((backupServices env (bdir ++ ["config_" ++ ts])
      (w.fs.mkdir (bdir ++ ["config_" ++ ts])) [] l1).1.mkdir
        ((bdir ++ ["config_" ++ ts]) ++ [s])).pathExists p = true := by
    unfold FS.pathExists
    rw [hdr2]
    simp
  have hstep : ∀ (res : Dict),
      backupPaths env s ((bdir ++ ["config_" ++ ts]) ++ [s])
        ((backupServices env (bdir ++ ["config_" ++ ts])
          (w.fs.mkdir (bdir ++ ["config_" ++ ts])) [] l1).1.mkdir
            ((bdir ++ ["config_" ++ ts]) ++ [s])) res [p] =
      (((backupServices env (bdir ++ ["config_" ++ ts])
          (w.fs.mkdir (bdir ++ ["config_" ++ ts])) [] l1).1.mkdir
            ((bdir ++ ["config_" ++ ts]) ++ [s])).copytree p
          (((bdir ++ ["config_" ++ ts]) ++ [s]) ++ [baseName p]),
        dictSet res (s ++ "_" ++ baseName p) "success") := by
    intro res
    simp only [backupPaths, hex, hdr2, henv]
    simp [backupPaths]
  rw [hstep]
  have hKsep := nodup_sep hndall
    (show allKeys (l1 ++ (s, [p]) :: l2) =
      allKeys l1 ++ pairKey s p :: allKeys l2 from by simp [allKeys])
  have hL2 : ∀ s' ps', (s', ps') ∈ l2 →
      (∀ q, (((bdir ++ ["config_" ++ ts]) ++ [s]) ++ [baseName p]) <+: q →
        q ≠ (bdir ++ ["config_" ++ ts]) ++ [s']) ∧
      (∀ p' ∈ ps', ∀ q,
        (((bdir ++ ["config_" ++ ts]) ++ [s]) ++ [baseName p]) <+: q →
        ¬ (((bdir ++ ["config_" ++ ts]) ++ [s']) ++ [baseName p']) <+: q) := by
    intro s' ps' hm'
    refine ⟨mkdir_ne_of_len (by simp), ?_⟩
    intro p' hp'
    refine target_not_prefix_of_key_ne ?_
    refine hKsep.2 (pairKey s' p') ?_
    exact List.mem_flatMap.mpr ⟨(s', ps'), hm', List.mem_map_of_mem _ hp'⟩
  have UL2 := backupServices_untouched env (bdir ++ ["config_" ++ ts])
    (((bdir ++ ["config_" ++ ts]) ++ [s]) ++ [baseName p])
    (((backupServices env (bdir ++ ["config_" ++ ts])
      (w.fs.mkdir (bdir ++ ["config_" ++ ts])) [] l1).1.mkdir
        ((bdir ++ ["config_" ++ ts]) ++ [s])).copytree p
      (((bdir ++ ["config_" ++ ts]) ++ [s]) ++ [baseName p])) l2
    (((backupServices env (bdir ++ ["config_" ++ ts])
      (w.fs.mkdir (bdir ++ ["config_" ++ ts])) [] l1).1.mkdir
        ((bdir ++ ["config_" ++ ts]) ++ [s])).copytree p
      (((bdir ++ ["config_" ++ ts]) ++ [s]) ++ [baseName p]))
    (dictSet (backupServices env (bdir ++ ["config_" ++ ts])
      (w.fs.mkdir (bdir ++ ["config_" ++ ts])) [] l1).2
      (s ++ "_" ++ baseName p) "success")
    (fun q _ => ⟨rfl, rfl⟩) (fun s' ps' hm' => hL2 s' ps' hm')
  have hCfile : (((backupServices env (bdir ++ ["config_" ++ ts])
      (w.fs.mkdir (bdir ++ ["config_" ++ ts])) [] l1).1.mkdir
        ((bdir ++ ["config_" ++ ts]) ++ [s])).copytree p
      (((bdir ++ ["config_" ++ ts]) ++ [s]) ++ [baseName p])).files
      ((((bdir ++ ["config_" ++ ts]) ++ [s]) ++ [baseName p]) ++ [f]) = some c := by
    rw [FS.copytree_files, List.drop_left]
    have hv : ((backupServices env (bdir ++ ["config_" ++ ts])
        (w.fs.mkdir (bdir ++ ["config_" ++ ts])) [] l1).1.mkdir
          ((bdir ++ ["config_" ++ ts]) ++ [s])).files (p ++ [f]) = some c := by
      rw [(SB (p ++ [f]) hbpf).1]
      exact hfile
    rw [hv]
    have hpre : (((bdir ++ ["config_" ++ ts]) ++ [s]) ++ [baseName p]).isPrefixOf
        ((((bdir ++ ["config_" ++ ts]) ++ [s]) ++ [baseName p]) ++ [f]) = true := by
      simp
    rw [hpre]
    simp
  have hCdirU : (((backupServices env (bdir ++ ["config_" ++ ts])
      (w.fs.mkdir (bdir ++ ["config_" ++ ts])) [] l1).1.mkdir
        ((bdir ++ ["config_" ++ ts]) ++ [s])).copytree p
      (((bdir ++ ["config_" ++ ts]) ++ [s]) ++ [baseName p])).dirs
      (((bdir ++ ["config_" ++ ts]) ++ [s]) ++ [baseName p]) = true := by
    rw [FS.copytree_dirs]
    rw [List.drop_length, List.append_nil, hdr2]
    simp
  have hCdirS : (((backupServices env (bdir ++ ["config_" ++ ts])
      (w.fs.mkdir (bdir ++ ["config_" ++ ts])) [] l1).1.mkdir
        ((bdir ++ ["config_" ++ ts]) ++ [s])).copytree p
      (((bdir ++ ["config_" ++ ts]) ++ [s]) ++ [baseName p])).dirs
      ((bdir ++ ["config_" ++ ts]) ++ [s]) = true := by
    rw [FS.copytree_dirs]
    have hmk : ((backupServices env (bdir ++ ["config_" ++ ts])
        (w.fs.mkdir (bdir ++ ["config_" ++ ts])) [] l1).1.mkdir
          ((bdir ++ ["config_" ++ ts]) ++ [s])).dirs
        ((bdir ++ ["config_" ++ ts]) ++ [s]) = true := by
      rw [FS.mkdir_dirs, if_pos rfl]
    rw [hmk]
    simp
  refine ⟨?_, ?_, ?_, ?_⟩
  · rw [(UL2 _ (List.prefix_append _ _)).1]
    exact hCfile
  · rw [(UL2 _ List.prefix_rfl).2]
    exact hCdirU
  · exact backupServices_dirs_mono env _ _ l2 _ _ hCdirS
  · have SC := sameOutside_copytree SB p
      (((bdir ++ ["config_" ++ ts]) ++ [s]) ++ [baseName p]) hbu
    exact backupServices_sameOutside env bdir _ w.fs hcbd l2 _ _ SC

/-- C1: for every service with a single existing configured directory path
containing a file, performing a configuration backup at timestamp `ts` and
then a configuration restore of that service from timestamp `ts` reproduces
byte-identical file content at the path's original live location (the copy
oracle never raising, and the live path lying outside the backup root). -/
theorem config_backup_restore_roundtrip (env : Env) (bdir : FPath) (ts s : String)
    (p : FPath) (f c : String) (w : World)
    (hmem : (s, [p]) ∈ config_paths)
    (hdir : w.fs.dirs p = true)
    (hfile : w.fs.files (p ++ [f]) = some c)
    (hb1 : ¬ bdir <+: p) (hb2 : ¬ p <+: bdir)
    (henv : ∀ a b, env.copyOk a b = true) :
    (restore_configuration env config_paths bdir ts (some s)
        (backup_configurations env config_paths bdir ts w).2).1 = true ∧
    ((restore_configuration env config_paths bdir ts (some s)
        (backup_configurations env config_paths bdir ts w).2).2).fs.files
      (p ++ [f]) = some c := by
  obtain ⟨h1, h2, h3, h4⟩ :=
    backup_single_dir_facts env bdir ts s p f c w hmem hdir hfile hb1 hb2 henv
  have hfs : (backup_configurations env config_paths bdir ts w).2.fs =
      (configBackupFS env bdir ts w).rmtree (bdir ++ ["config_" ++ ts]) := rfl
  have harch : (backup_configurations env config_paths bdir ts w).2.archives
      (bdir ++ ["config_backup_" ++ ts ++ ".tar.gz"]) =
      some (tarAdd (configBackupFS env bdir ts w) (bdir ++ ["config_" ++ ts])
        ("config_" ++ ts)) := by
    simp [backup_configurations, configBackupFS]
  have haux : ¬ (bdir ++ ["config_" ++ ts]) <+: p :=
    fun h => hb1 ((List.prefix_append _ _).trans h)
  have hnp : (bdir ++ ["config_" ++ ts]).isPrefixOf p = false :=
    (prefixOf_false_iff _ _).mpr haux
  have hpt : ¬ (p = bdir ++ ["temp_restore_" ++ ts]) := by
    intro h
    exact hb1 (by rw [h]; exact List.prefix_append _ _)
  have hFBp : (configBackupFS env bdir ts w).dirs p = true := by
    rw [(h4 p hb1).2]
    exact hdir
  have h2n : (configBackupFS env bdir ts w).dirs
      (bdir ++ ["config_" ++ ts, s, baseName p]) = true := by
    simpa using h2
  have h1n : (configBackupFS env bdir ts w).files
      (bdir ++ ["config_" ++ ts, s, baseName p, f]) = some c := by
    simpa using h1
  have h3n : (configBackupFS env bdir ts w).dirs
      (bdir ++ ["config_" ++ ts, s]) = true := by
    simpa using h3
  have hdirSD : ((((configBackupFS env bdir ts w).rmtree
      (bdir ++ ["config_" ++ ts])).mkdir (bdir ++ ["temp_restore_" ++ ts])).extractAll
        (tarAdd (configBackupFS env bdir ts w) (bdir ++ ["config_" ++ ts])
          ("config_" ++ ts))
        (bdir ++ ["temp_restore_" ++ ts])).dirs
      (((bdir ++ ["temp_restore_" ++ ts]) ++ ["config_" ++ ts]) ++ [s]) = true := by
    rw [FS.extractAll_dirs]
    have hx : (bdir ++ ["temp_restore_" ++ ts]).isPrefixOf
        (((bdir ++ ["temp_restore_" ++ ts]) ++ ["config_" ++ ts]) ++ [s]) = true := by
      rw [ List.isPrefixOf_iff_prefix]
      exact (List.prefix_append _ _).trans (List.prefix_append _ _)
    have hdropSD : ((((bdir ++ ["temp_restore_" ++ ts]) ++ ["config_" ++ ts]) ++
        [s]).drop (bdir ++ ["temp_restore_" ++ ts]).length) = ["config_" ++ ts, s] := by
      rw [List.append_assoc, List.drop_left]
      rfl
    rw [hx, hdropSD, tarAdd_adirs]
    simp [h3n]
  have hsd : ((((configBackupFS env bdir ts w).rmtree
      (bdir ++ ["config_" ++ ts])).mkdir (bdir ++ ["temp_restore_" ++ ts])).extractAll
        (tarAdd (configBackupFS env bdir ts w) (bdir ++ ["config_" ++ ts])
          ("config_" ++ ts))
        (bdir ++ ["temp_restore_" ++ ts])).pathExists
      (((bdir ++ ["temp_restore_" ++ ts]) ++ ["config_" ++ ts]) ++ [s]) = true := by
    unfold FS.pathExists
    rw [hdirSD]
    simp
  have hdirSRC : ((((configBackupFS env bdir ts w).rmtree
      (bdir ++ ["config_" ++ ts])).mkdir (bdir ++ ["temp_restore_" ++ ts])).extractAll
        (tarAdd (configBackupFS env bdir ts w) (bdir ++ ["config_" ++ ts])
          ("config_" ++ ts))
        (bdir ++ ["temp_restore_" ++ ts])).dirs
      ((((bdir ++ ["temp_restore_" ++ ts]) ++ ["config_" ++ ts]) ++ [s]) ++
        [baseName p]) = true := by
    rw [FS.extractAll_dirs]
    have hx2 : (bdir ++ ["temp_restore_" ++ ts]).isPrefixOf
        ((((bdir ++ ["temp_restore_" ++ ts]) ++ ["config_" ++ ts]) ++ [s]) ++
          [baseName p]) = true := by
      rw [ List.isPrefixOf_iff_prefix]
      exact ((List.prefix_append _ _).trans (List.prefix_append _ _)).trans
        (List.prefix_append _ _)
    have hdropSRC : (((((bdir ++ ["temp_restore_" ++ ts]) ++ ["config_" ++ ts]) ++
        [s]) ++ [baseName p]).drop (bdir ++ ["temp_restore_" ++ ts]).length) =
        ["config_" ++ ts, s, baseName p] := by
      rw [List.append_assoc, List.append_assoc, List.drop_left]
      rfl
    rw [hx2, hdropSRC, tarAdd_adirs]
    simp [h2n]
  have hsrc : ((((configBackupFS env bdir ts w).rmtree
      (bdir ++ ["config_" ++ ts])).mkdir (bdir ++ ["temp_restore_" ++ ts])).extractAll
        (tarAdd (configBackupFS env bdir ts w) (bdir ++ ["config_" ++ ts])
          ("config_" ++ ts))
        (bdir ++ ["temp_restore_" ++ ts])).pathExists
      ((((bdir ++ ["temp_restore_" ++ ts]) ++ ["config_" ++ ts]) ++ [s]) ++
        [baseName p]) = true := by
    unfold FS.pathExists
    rw [hdirSRC]
    simp
  have hdirp : ((((configBackupFS env bdir ts w).rmtree
      (bdir ++ ["config_" ++ ts])).mkdir (bdir ++ ["temp_restore_" ++ ts])).extractAll
        (tarAdd (configBackupFS env bdir ts w) (bdir ++ ["config_" ++ ts])
          ("config_" ++ ts))
        (bdir ++ ["temp_restore_" ++ ts])).dirs p = true := by
    rw [FS.extractAll_dirs, FS.mkdir_dirs, if_neg hpt, FS.rmtree_dirs, hnp]
    simp [hFBp]
  have hlook : lookupPaths config_paths s = [p] :=
    lookupPaths_eq (by decide) hmem
  have hstep : restorePathsService env
      (((bdir ++ ["temp_restore_" ++ ts]) ++ ["config_" ++ ts]) ++ [s])
      ((((configBackupFS env bdir ts w).rmtree
        (bdir ++ ["config_" ++ ts])).mkdir (bdir ++ ["temp_restore_" ++ ts])).extractAll
          (tarAdd (configBackupFS env bdir ts w) (bdir ++ ["config_" ++ ts])
            ("config_" ++ ts))
          (bdir ++ ["temp_restore_" ++ ts])) [p] =
      (true, (((((configBackupFS env bdir ts w).rmtree
        (bdir ++ ["config_" ++ ts])).mkdir (bdir ++ ["temp_restore_" ++ ts])).extractAll
          (tarAdd (configBackupFS env bdir ts w) (bdir ++ ["config_" ++ ts])
            ("config_" ++ ts))
          (bdir ++ ["temp_restore_" ++ ts])).rmtree p).copytree
        ((((bdir ++ ["temp_restore_" ++ ts]) ++ ["config_" ++ ts]) ++ [s]) ++
          [baseName p]) p) := by
    simp only [restorePathsService, hsrc, hdirp, henv]
    simp [restorePathsService]
  have hval : (tarAdd (configBackupFS env bdir ts w) (bdir ++ ["config_" ++ ts])
      ("config_" ++ ts)).afiles ["config_" ++ ts, s, baseName p, f] = some c := by
    rw [tarAdd_afiles, if_pos rfl]
    simpa using h1
  have hTpreSrcF : (bdir ++ ["temp_restore_" ++ ts]).isPrefixOf
      ((((((bdir ++ ["temp_restore_" ++ ts]) ++ ["config_" ++ ts]) ++ [s]) ++
        [baseName p])) ++ [f]) = true := by
    rw [ List.isPrefixOf_iff_prefix]
    exact (((List.prefix_append _ _).trans (List.prefix_append _ _)).trans
      (List.prefix_append _ _)).trans (List.prefix_append _ _)
  have hdrop3 : ((((((bdir ++ ["temp_restore_" ++ ts]) ++ ["config_" ++ ts]) ++
      [s]) ++ [baseName p])) ++ [f]).drop (bdir ++ ["temp_restore_" ++ ts]).length =
      ["config_" ++ ts, s, baseName p, f] := by
    rw [List.append_assoc, List.append_assoc, List.append_assoc, List.drop_left]
    rfl
  have hFS1v : ((((configBackupFS env bdir ts w).rmtree
      (bdir ++ ["config_" ++ ts])).mkdir (bdir ++ ["temp_restore_" ++ ts])).extractAll
        (tarAdd (configBackupFS env bdir ts w) (bdir ++ ["config_" ++ ts])
          ("config_" ++ ts))
        (bdir ++ ["temp_restore_" ++ ts])).files
      ((((((bdir ++ ["temp_restore_" ++ ts]) ++ ["config_" ++ ts]) ++ [s]) ++
        [baseName p])) ++ [f]) = some c := by
    rw [FS.extractAll_files, hdrop3, hTpreSrcF, hval]
    simp
  have hbS : bdir <+:
      ((((((bdir ++ ["temp_restore_" ++ ts]) ++ ["config_" ++ ts]) ++ [s]) ++
        [baseName p])) ++ [f]) :=
    ((((List.prefix_append _ _).trans (List.prefix_append _ _)).trans
      (List.prefix_append _ _)).trans (List.prefix_append _ _)).trans
      (List.prefix_append _ _)
  have hnpS : p.isPrefixOf
      ((((((bdir ++ ["temp_restore_" ++ ts]) ++ ["config_" ++ ts]) ++ [s]) ++
        [baseName p])) ++ [f]) = false := by
    refine (prefixOf_false_iff _ _).mpr ?_
    intro hcon
    rcases prefixComparable hcon hbS with h' | h'
    · exact hb2 h'
    · exact hb1 h'
  have hTnotpf : (bdir ++ ["temp_restore_" ++ ts]).isPrefixOf (p ++ [f]) = false := by
    refine (prefixOf_false_iff _ _).mpr ?_
    intro hcon
    rcases prefixComparable hcon (List.prefix_append p [f]) with h' | h'
    · exact hb1 ((List.prefix_append _ _).trans h')
    · rcases prefixComparable h'
        (List.prefix_append bdir ["temp_restore_" ++ ts]) with h'' | h''
      · exact hb2 h''
      · exact hb1 h''
  have hppre : p.isPrefixOf (p ++ [f]) = true := by
    rw [ List.isPrefixOf_iff_prefix]
    exact List.prefix_append _ _
  simp only [restore_configuration, harch, hfs]
  simp only [hsd, hlook, hstep, eq_self_iff_true, if_true, true_and]
  rw [FS.rmtree_files, hTnotpf, FS.copytree_files, List.drop_left, hppre,
    FS.rmtree_files, hnpS, hFS1v]
  simp


/-- Witness for C1 on a concrete one-file `kamailio` configuration tree. -/
theorem config_backup_restore_roundtrip_witness :
    (restore_configuration c1Env config_paths ["b"] "T" (some "kamailio")
        (backup_configurations c1Env config_paths ["b"] "T" c1World).2).1 = true ∧
    ((restore_configuration c1Env config_paths ["b"] "T" (some "kamailio")
        (backup_configurations c1Env config_paths ["b"] "T" c1World).2).2).fs.files
      (["etc", "kamailio"] ++ ["kamailio.cfg"]) = some "v1" :=
  config_backup_restore_roundtrip c1Env ["b"] "T" "kamailio" ["etc", "kamailio"]
    "kamailio.cfg" "v1" c1World (by decide) (by decide) (by decide) (by decide)
    (by decide) (fun _ _ => rfl)

/-- Witness for C5 on a concrete world: the outcome map is exactly the
per-pair expected outcome map. -/
theorem backup_configurations_isolation_witness :
    (backup_configurations c1Env config_paths ["b"] "T" c1World).1 =
      expectedOutcomes c1Env (["b"] ++ ["config_" ++ "T"]) c1World.fs config_paths :=
  (backup_configurations_isolation c1Env ["b"] "T" c1World
    (by intro s ps p hm hp; fin_cases hm <;> fin_cases hp <;> decide)).1
